import Mathlib

set_option maxHeartbeats 1000000
set_option maxRecDepth 8192

/-!
Shallow embedding of `src/utils/typedData.ts` (SNIP-12 typed-data hashing).

Modelling conventions:
* Scalars/digests are JS strings (the source passes hex strings around);
  the list-hash inputs are `BigNumberish` values (number or string), as in
  the source.
* The hash primitives, Merkle-tree construction, short-string packing,
  byte-array packing, selector hashing and the revision sentinel constants
  live outside `src/` (hash.ts, merkle.ts, shortString.ts, byteArray.ts,
  constants.ts, types/). They are modelled as an abstract `Prims` bundle
  of collaborator functions, per the spec's external-interface contracts.
* JS exceptions become `Except TdErr`; property access on `undefined`,
  destructuring of `undefined`, etc. are `TdErr.runtime`.
* The source recurses without a depth bound and diverges on cyclic type
  graphs (the spec notes this); recursive functions therefore take fuel,
  and fuel exhaustion is `TdErr.nonTermination` (for `getDependencies`,
  an `Option` result with `none` for exhaustion).
-/

/-- Protocol revision (`TypedDataRevision` imported from the types module). -/
inductive Revision
  | ACTIVE
  | LEGACY
deriving DecidableEq, Repr

/-- JS runtime values threaded through the encoder (the source works on `unknown`).
`vnull` models JS `null`; absent object keys model `undefined`. -/
inductive JsValue
  | vnull
  | vbool (b : Bool)
  | vint (n : Int)
  | vstr (s : String)
  | varr (items : List JsValue)
  | vobj (fields : List (String × JsValue))

/-- Is the value a JS primitive (for which `===` is structural)? -/
def JsValue.isPrim : JsValue → Bool
  | JsValue.vnull | JsValue.vbool _ | JsValue.vint _ | JsValue.vstr _ => true
  | _ => false

/-- JS strict equality `===` against a primitive right operand (the only
shape the source compares: a revision value against an enum constant).
Objects and arrays compare by reference in JS and are never equal to a
primitive, so both object cases yield `false`. -/
def jsStrictEqPrim : JsValue → JsValue → Bool
  | JsValue.vnull, JsValue.vnull => true
  | JsValue.vbool a, JsValue.vbool b => a == b
  | JsValue.vint a, JsValue.vint b => a == b
  | JsValue.vstr a, JsValue.vstr b => a == b
  | _, _ => false

/-- JS `value === null`. -/
def isNullV : JsValue → Bool
  | JsValue.vnull => true
  | _ => false

/-- `BigNumberish`: the source mixes JS numbers/bigints and strings in the
lists handed to the element-hash collaborators. -/
inductive BigNumberish
  | num (n : Int)
  | str (s : String)
deriving DecidableEq, Repr

/-- A single field declaration (`StarknetType` / `StarknetEnumType` /
`StarknetMerkleType`): `contains` is present on enum and merkletree fields. -/
structure StarknetType where
  name : String
  type : String
  contains : Option String := none
deriving DecidableEq, Repr

/-- `TypedData['types']`: mapping from type name to field declarations.
Only keyed lookup and key-membership are used by the source, so an
association list with first-match lookup is a faithful model. -/
abbrev TypesDict := List (String × List StarknetType)

/-- Ephemeral `(parent, key)` context threaded through value encoding. -/
structure Context where
  parent : Option String := none
  key : Option String := none
deriving DecidableEq, Repr

/-- Error kinds (spec section 7) plus `runtime` for JS TypeErrors
(property access / destructuring on `undefined` or `null`) and
`nonTermination` for the source's unbounded recursion on cyclic inputs. -/
inductive TdErr
  | schemaMismatch
  | missingField (field : String)
  | rangeViolation (type : String)
  | typeMismatch (type : String)
  | unsupportedType (type : String)
  | merkleShape (info : String)
  | conversion (info : String)
  | runtime (info : String)
  | nonTermination
deriving DecidableEq, Repr

/-- External collaborators (spec section 6); all live outside `src/`.
`activeSentinel` / `legacySentinel` are the `TypedDataRevision` enum
constants from the types module (primitive values, `'1'` and `'0'` in the
real library; kept abstract because the spec does not re-derive them). -/
structure Prims where
  computePedersenHashOnElements : List BigNumberish → String
  computePoseidonHashOnElements : List BigNumberish → String
  computePedersenHash : String → String → String
  computePoseidonHash : String → String → String
  getSelectorFromName : String → String
  merkleRootOf : List String → (String → String → String) → String
  encodeShortString : String → Option String
  byteArrayFromString : String → List BigNumberish × BigNumberish × Int
  activeSentinel : JsValue
  legacySentinel : JsValue

/-- Per-revision capability record (`Configuration`). -/
structure Configuration where
  domain : String
  hashMethod : List BigNumberish → String
  hashMerkleMethod : String → String → String
  escapeTypeString : String → String
  presetTypes : TypesDict

/-- The preset type library (Active only): `u256`, `TokenAmount`, `NftId`. -/
def presetTypes : TypesDict :=
  [ ("u256",
      [ { name := "low", type := "u128" }, { name := "high", type := "u128" } ]),
    ("TokenAmount",
      [ { name := "token_address", type := "ContractAddress" },
        { name := "amount", type := "u256" } ]),
    ("NftId",
      [ { name := "collection_address", type := "ContractAddress" },
        { name := "token_id", type := "u256" } ]) ]

/-- `revisionConfiguration`: static lookup table keyed by revision. -/
def revisionConfiguration (P : Prims) : Revision → Configuration
  | Revision.ACTIVE =>
    { domain := "StarknetDomain"
      hashMethod := P.computePoseidonHashOnElements
      hashMerkleMethod := P.computePoseidonHash
      escapeTypeString := fun s => "\"" ++ s ++ "\""
      presetTypes := presetTypes }
  | Revision.LEGACY =>
    { domain := "StarkNetDomain"
      hashMethod := P.computePedersenHashOnElements
      hashMerkleMethod := P.computePedersenHash
      escapeTypeString := fun s => s
      presetTypes := [] }

/-- First-match lookup in a types dictionary (JS `types[name]`). -/
def tlookup (types : TypesDict) (name : String) : Option (List StarknetType) :=
  types.lookup name

/-- JS `name in types`. -/
def tcontainsKey (types : TypesDict) (name : String) : Bool :=
  types.any (fun p => p.1 == name)

/-- JS truthiness of a value. -/
def jsTruthy : JsValue → Bool
  | JsValue.vnull => false
  | JsValue.vbool b => b
  | JsValue.vint n => n != 0
  | JsValue.vstr s => s ≠ ""
  | JsValue.varr _ => true
  | JsValue.vobj _ => true

/-- JS property read `v.name` yielding `undefined` (`none`) when absent.
Property reads on JS primitives yield `undefined`; the source never reads a
property of `null`/`undefined` here without the claims' documents providing
an object, so the `vnull` case is also mapped to `none`. -/
def jsGetProp : JsValue → String → Option JsValue
  | JsValue.vobj fields, name => fields.lookup name
  | _, _ => none

/-- JS `s.endsWith('*')` as used by the source (`type[type.length-1] === '*'`). -/
def endsWithStar (s : String) : Bool :=
  s.data.getLast? == some '*'

/-- Kernel-reducible `String.startsWith`. -/
def strStartsWith (s pre : String) : Bool :=
  pre.data.isPrefixOf s.data

/-- Kernel-reducible whitespace trim (JS `String.prototype.trim`). -/
def trimStr (s : String) : String :=
  String.mk (((s.data.dropWhile Char.isWhitespace).reverse.dropWhile
    Char.isWhitespace).reverse)

/-- Lexicographic comparison on code points (JS string `<`/`sort` order;
identical to UTF-16 code-unit order on the BMP identifiers used here). -/
def charListLe : List Char → List Char → Bool
  | [], _ => true
  | _ :: _, [] => false
  | a :: as, b :: bs =>
    if a.toNat < b.toNat then true
    else if b.toNat < a.toNat then false
    else charListLe as bs

def strLe (a b : String) : Bool :=
  charListLe a.data b.data

def insertSorted (x : String) : List String → List String
  | [] => [x]
  | y :: ys => if strLe x y then x :: y :: ys else y :: insertSorted x ys

/-- JS `Array.prototype.sort()` on strings (default lexicographic order;
with a total order the sorted permutation is unique, so insertion sort is
extensionally the same function). -/
def sortStrings : List String → List String
  | [] => []
  | x :: xs => insertSorted x (sortStrings xs)

/-- Hex digits, lowercase (JS `BigInt.prototype.toString(16)`). -/
def natToHexDigits (n : Nat) : String :=
  String.mk (Nat.toDigits 16 n)

/-- Modelled from the spec: `toHex` of the num collaborator (not in `src/`):
`'0x' + BigInt(value).toString(16)` (a leading minus ends up after the
prefix, making the result unparseable as a BigInt, as in the source). -/
def intToHexStr (n : Int) : String :=
  if n < 0 then "0x-" ++ natToHexDigits (-n).toNat else "0x" ++ natToHexDigits n.toNat

/-- Decimal digit run, at least one digit. -/
def parseDecDigits (cs : List Char) : Option Nat :=
  match cs with
  | [] => none
  | _ =>
    cs.foldl (fun acc c =>
      match acc with
      | none => none
      | some a => if c.isDigit then some (a * 10 + (c.toNat - 48)) else none)
      (some 0)

def hexDigitVal (c : Char) : Option Nat :=
  if c.isDigit then some (c.toNat - 48)
  else if 'a' ≤ c ∧ c ≤ 'f' then some (c.toNat - 87)
  else if 'A' ≤ c ∧ c ≤ 'F' then some (c.toNat - 55)
  else none

/-- Hex digit run, at least one digit. -/
def parseHexDigits (cs : List Char) : Option Nat :=
  match cs with
  | [] => none
  | _ =>
    cs.foldl (fun acc c =>
      match acc with
      | none => none
      | some a =>
        match hexDigitVal c with
        | some d => some (a * 16 + d)
        | none => none)
      (some 0)

/-- Modelled from the spec: JS `BigInt(string)` (numeric parsing is an
external collaborator): trimmed; empty means 0; decimal with optional
sign; `0x` hex without sign; anything else throws (`none`). -/
def parseJsBigInt (s : String) : Option Int :=
  let t := trimStr s
  if t = "" then some 0
  else if strStartsWith t "0x" ∨ strStartsWith t "0X" then
    (parseHexDigits (t.drop 2).data).map Int.ofNat
  else if strStartsWith t "-" then
    (parseDecDigits (t.drop 1).data).map (fun n => -(n : Int))
  else if strStartsWith t "+" then
    (parseDecDigits (t.drop 1).data).map Int.ofNat
  else (parseDecDigits t.data).map Int.ofNat

/-- Modelled from the spec: JS `BigInt(value)` on a runtime value.
Numbers and bigints pass through, booleans become 0/1, strings parse as
numeric literals; `null`, objects and arrays throw (`none`; JS array
to-primitive coercion is not modelled — no claim depends on it). -/
def toBigIntV : JsValue → Option Int
  | JsValue.vint n => some n
  | JsValue.vbool b => some (if b then 1 else 0)
  | JsValue.vstr s => parseJsBigInt s
  | _ => none

/-- Modelled from the spec: `isHex` of the num collaborator —
`/^0x[0-9a-f]+$/i`. -/
def isHexString (s : String) : Bool :=
  (strStartsWith s "0x" ∨ strStartsWith s "0X") ∧
    (s.drop 2) ≠ "" ∧ (s.drop 2).data.all (fun c => (hexDigitVal c).isSome)

/-- JS `s.slice(1, -1)`. -/
def jsSlice1m1 (s : String) : String :=
  (s.drop 1).dropRight 1

/-- The `/^\(.*\)$/` test used for enum-variant tuple strings (JS `.`
does not match line terminators). -/
def isParenTuple (s : String) : Bool :=
  s.data.head? == some '(' ∧ s.data.getLast? == some ')' ∧ 2 ≤ s.length ∧
    (jsSlice1m1 s).data.all
      (fun c => c ≠ '\n' ∧ c ≠ '\r' ∧ c ≠ '\u2028' ∧ c ≠ '\u2029')

/-- The name normalization applied at the top of `getDependencies`:
strip a trailing `*`; otherwise (Active only) replace a literal `enum` by
the caller's `contains` reference, or unwrap a parenthesized tuple. -/
def depNormalize (rev : Revision) (contains : String) (type : String) : String :=
  if endsWithStar type then type.dropRight 1
  else if rev = Revision.ACTIVE then
    if type = "enum" then contains
    else if isParenTuple type then jsSlice1m1 type
    else type
  else type

/-- `getDependencies`, fueled. `none` models divergence (the source
recurses forever on cyclic type graphs). The accumulator argument and the
per-field fold mirror the source's `reduce` with its `filter` dedup. -/
def getDependencies (types : TypesDict) (rev : Revision) :
    Nat → String → List String → String → Option (List String)
  | 0, _, _, _ => none
  | fuel + 1, type, dependencies, contains =>
    let t := depNormalize rev contains type
    if dependencies.contains t then some dependencies
    else
      match tlookup types t with
      | none => some dependencies
      | some fields =>
        (fields.foldlM (fun previous f =>
          (getDependencies types rev fuel f.type previous (f.contains.getD "")).map
            (fun r => previous ++ r.filter (fun d => !previous.contains d))) []).map
          (fun fold => t :: fold)

/-- The inner per-fields fold of `getDependencies` (the `reduce` over a
found type's field declarations), starting from an empty accumulator. -/
def exploreFields (types : TypesDict) (rev : Revision) (fuel : Nat)
    (fields : List StarknetType) : Option (List String) :=
  fields.foldlM (fun previous f =>
    (getDependencies types rev fuel f.type previous (f.contains.getD "")).map
      (fun r => previous ++ r.filter (fun d => !previous.contains d))) []

/-- Modelled from the spec: the field modulus `FIELD_PRIME`
(`PRIME` of the constants module, not in `src/`). -/
def PRIME : Int :=
  3618502788666131213697322783095070105623107215331596699973092056135872020481

/-- Modelled from the spec: `RANGE_FELT = [0, PRIME - 1]`. -/
def RANGE_FELT_MIN : Int := 0

def RANGE_FELT_MAX : Int := PRIME - 1

/-- Modelled from the spec: `RANGE_I128 = [-(2^127), 2^127 - 1]`. -/
def RANGE_I128_MIN : Int := -(2 ^ 127)

def RANGE_I128_MAX : Int := 2 ^ 127 - 1

/-- Modelled from the spec: `RANGE_U128 = [0, 2^128 - 1]`. -/
def RANGE_U128_MIN : Int := 0

def RANGE_U128_MAX : Int := 2 ^ 128 - 1

/-- `assertRange`: `BigInt(data)` then bounds check; a failed conversion is
a thrown JS error, a failed bound the assert error. -/
def assertRange (data : JsValue) (type : String) (min max : Int) :
    Except TdErr Unit :=
  match toBigIntV data with
  | none => throw (TdErr.conversion "BigInt conversion")
  | some v =>
    if min ≤ v ∧ v ≤ max then pure ()
    else throw (TdErr.rangeViolation type)

/-- `getHex`: try `toHex` (numeric conversion); on failure, strings are
packed as short strings and hexed; anything else is `Invalid BigNumberish`. -/
def getHex (P : Prims) (value : JsValue) : Except TdErr String :=
  match toBigIntV value with
  | some n => pure (intToHexStr n)
  | none =>
    match value with
    | JsValue.vstr s =>
      match P.encodeShortString s with
      | some h =>
        match parseJsBigInt h with
        | some n => pure (intToHexStr n)
        | none => throw (TdErr.conversion "invalid short string hex")
      | none => throw (TdErr.conversion "encodeShortString failed")
    | _ => throw (TdErr.conversion "Invalid BigNumberish")

/-- The typed document: `{ types, primaryType, domain, message }`. -/
structure TypedData where
  types : TypesDict
  primaryType : String
  domain : JsValue
  message : JsValue

/-- The first guard of `identifyRevision`:
`revisionConfiguration[Revision.ACTIVE].domain in types && domain.revision === Revision.ACTIVE`. -/
def activeCondition (P : Prims) (td : TypedData) : Bool :=
  tcontainsKey td.types (revisionConfiguration P Revision.ACTIVE).domain &&
    (match jsGetProp td.domain "revision" with
     | some v => jsStrictEqPrim v P.activeSentinel
     | none => false)

/-- The second guard of `identifyRevision`:
`revisionConfiguration[Revision.LEGACY].domain in types && (domain.revision ?? Revision.LEGACY) === Revision.LEGACY`
(`??` coalesces both `undefined` and `null` to the Legacy constant). -/
def legacyCondition (P : Prims) (td : TypedData) : Bool :=
  tcontainsKey td.types (revisionConfiguration P Revision.LEGACY).domain &&
    (match jsGetProp td.domain "revision" with
     | none => true
     | some JsValue.vnull => true
     | some v => jsStrictEqPrim v P.legacySentinel)

/-- `identifyRevision`: Active iff the Active domain-type name is declared
and `domain.revision === ACTIVE`; else Legacy iff the Legacy domain-type
name is declared and `(domain.revision ?? LEGACY) === LEGACY`; else none. -/
def identifyRevision (P : Prims) (td : TypedData) : Option Revision :=
  if activeCondition P td then some Revision.ACTIVE
  else if legacyCondition P td then some Revision.LEGACY
  else none

/-- `validateTypedData`: `Boolean(message && primaryType && types && revision)`.
`types` is a required structure field here, hence always truthy (a JS
object is truthy even when empty). -/
def validateTypedData (P : Prims) (td : TypedData) : Bool :=
  jsTruthy td.message ∧ td.primaryType ≠ "" ∧ (identifyRevision P td).isSome

/-- `prepareSelector`: pass a hex string through, otherwise hash the name. -/
def prepareSelector (P : Prims) (selector : String) : String :=
  if isHexString selector then selector else P.getSelectorFromName selector

/-- `isMerkleTreeType`. -/
def isMerkleTreeType (type : StarknetType) : Bool :=
  type.type == "merkletree"

/-- JS truthiness of `ctx.parent` / `ctx.key` (empty string is falsy). -/
def isTruthyOptStr : Option String → Bool
  | some s => s ≠ ""
  | none => false

/-- `getMerkleTreeType`: leaf type from the parent declaration's
`contains`; 'raw' when no context. Undefined lookups are JS TypeErrors. -/
def getMerkleTreeType (types : TypesDict) (ctx : Context) : Except TdErr String :=
  if isTruthyOptStr ctx.parent ∧ isTruthyOptStr ctx.key then
    match tlookup types (ctx.parent.getD "") with
    | none => throw (TdErr.runtime "find of undefined")
    | some parentType =>
      match parentType.find? (fun t => t.name == ctx.key.getD "") with
      | none => throw (TdErr.runtime "type of undefined")
      | some merkleType =>
        if ¬ isMerkleTreeType merkleType then
          throw (TdErr.merkleShape "is not a merkle tree")
        else
          match merkleType.contains with
          | none => throw (TdErr.runtime "endsWith of undefined")
          | some c =>
            if endsWithStar c then
              throw (TdErr.merkleShape "contain property must not be an array")
            else pure c
  else pure "raw"

/-- The merged type universe used by `encodeType`: Active overlays the
preset library over the document types (`{ ...types, ...presetTypes }`,
presets winning on a key clash); Legacy uses the document types alone. -/
def mergedTypes (rev : Revision) (types : TypesDict) : TypesDict :=
  match rev with
  | Revision.ACTIVE => presetTypes ++ types
  | Revision.LEGACY => types

/-- The target type string of a field in `encodeType`: Active rewrites a
literal `enum` to the field's `contains` reference (a missing `contains`
is a JS TypeError at the `.match` call that follows). -/
def encodeTypeTarget (rev : Revision) (t : StarknetType) : Except TdErr String :=
  if t.type = "enum" ∧ rev = Revision.ACTIVE then
    match t.contains with
    | some c => pure c
    | none => throw (TdErr.runtime "match of undefined")
  else pure t.type

/-- Rendering of a field's type string: a parenthesized tuple is escaped
element-wise (empty elements pass through unescaped); anything else is
escaped whole. -/
def renderTypeString (esc : String → String) (targetType : String) : String :=
  if isParenTuple targetType then
    "(" ++ String.intercalate ","
      (((jsSlice1m1 targetType).splitOn ",").map (fun e => if e = "" then e else esc e))
      ++ ")"
  else esc targetType

/-- One `name:type` element of a type block. -/
def renderFieldCode (esc : String → String) (rev : Revision) (t : StarknetType) :
    Except TdErr String :=
  (encodeTypeTarget rev t).map
    (fun targetType => esc t.name ++ ":" ++ renderTypeString esc targetType)

/-- One `EscapedName(field,field,...)` block (the template string joins the
element array with commas). -/
def typeBlock (allTypes : TypesDict) (esc : String → String) (rev : Revision)
    (dependency : String) : Except TdErr String :=
  match tlookup allTypes dependency with
  | none => throw (TdErr.runtime "map of undefined")
  | some fields =>
    (fields.mapM (renderFieldCode esc rev)).map
      (fun elems => esc dependency ++ "(" ++ String.intercalate "," elems ++ ")")

/-- `[primary, ...dependencies.sort()]`, or nothing when the primary is
falsy (no dependency found, or the empty-string type name). -/
def sortedDeps : List String → List String
  | [] => []
  | primary :: ds => if primary = "" then [] else primary :: sortStrings ds

/-- `encodeType`: dependency list (primary first, the rest sorted), then
one block per type, concatenated with no separator. -/
def encodeType (P : Prims) (fuel : Nat) (types : TypesDict) (type : String)
    (rev : Revision) : Except TdErr String :=
  match getDependencies (mergedTypes rev types) rev fuel type [] "" with
  | none => throw TdErr.nonTermination
  | some deps =>
    ((sortedDeps deps).mapM
      (typeBlock (mergedTypes rev types)
        (revisionConfiguration P rev).escapeTypeString rev)).map String.join

/-- `getTypeHash`: selector hash of the encoded type string. -/
def getTypeHash (P : Prims) (fuel : Nat) (types : TypesDict) (type : String)
    (rev : Revision) : Except TdErr String :=
  (encodeType P fuel types type rev).map P.getSelectorFromName

/-- JS `Object.entries`: objects give their pairs, strings their indexed
characters, arrays their indexed items, other primitives nothing;
`null` throws a TypeError. -/
def jsEntries : JsValue → Except TdErr (List (String × JsValue))
  | JsValue.vobj fields => pure fields
  | JsValue.vnull => throw (TdErr.runtime "entries of null")
  | JsValue.vstr s => pure (s.data.enum.map (fun p => (toString p.1, JsValue.vstr (String.mk [p.2]))))
  | JsValue.varr items => pure (items.enum.map (fun p => (toString p.1, p.2)))
  | _ => pure []

/-- JS indexing `v[i]`: arrays and strings index, `null` throws, other
values give `undefined` (modelled as `vnull`; no claim distinguishes the
two here). -/
def jsIndex : JsValue → Nat → Except TdErr JsValue
  | JsValue.varr items, i => pure (items.getD i JsValue.vnull)
  | JsValue.vnull, _ => throw (TdErr.runtime "index of null")
  | JsValue.vstr s, i =>
    pure (match s.data.get? i with
      | some c => JsValue.vstr (String.mk [c])
      | none => JsValue.vnull)
  | JsValue.vobj fields, i => pure ((fields.lookup (toString i)).getD JsValue.vnull)
  | _, _ => pure JsValue.vnull

/-- JS `data[field.name]` in `encodeData`: absent keys are `undefined`
(`none`), reading a property of `null` throws. -/
def jsGetField : JsValue → String → Except TdErr (Option JsValue)
  | JsValue.vobj fields, name => pure (fields.lookup name)
  | JsValue.vnull, _ => throw (TdErr.runtime "read of null")
  | _, _ => pure none

/-- `types[type] ?? revisionConfiguration[revision].presetTypes[type]`;
both absent is a JS TypeError at the `.reduce` call that follows. -/
def lookupTargetType (P : Prims) (types : TypesDict) (type : String)
    (rev : Revision) : Except TdErr (List StarknetType) :=
  match tlookup types type with
  | some t => pure t
  | none =>
    match tlookup (revisionConfiguration P rev).presetTypes type with
    | some t => pure t
    | none => throw (TdErr.runtime "reduce of undefined")

/-- One step of `encodeData`'s fold: the missing/null check (`null` is
tolerated only for `enum`-typed fields), then the field's value encoding
with the `(parent, key)` context. -/
def encodeDataField
    (ev : TypesDict → String → JsValue → Context → Revision → Except TdErr (String × String))
    (types : TypesDict) (type : String) (data : JsValue) (rev : Revision)
    (acc : List String × List String) (field : StarknetType) :
    Except TdErr (List String × List String) :=
  (jsGetField data field.name) >>= fun mv =>
    match mv with
    | none => throw (TdErr.missingField field.name)
    | some v =>
      if isNullV v ∧ field.type ≠ "enum" then throw (TdErr.missingField field.name)
      else
        (ev types field.type v { parent := some type, key := some field.name } rev).map
          (fun r => (acc.1 ++ [r.1], acc.2 ++ [r.2]))

/-- Body of `encodeData`, abstracted over the value encoder: type-hash
first, then each field in declared order. -/
def encodeDataAux (P : Prims) (fuel : Nat)
    (ev : TypesDict → String → JsValue → Context → Revision → Except TdErr (String × String))
    (types : TypesDict) (type : String) (data : JsValue) (rev : Revision) :
    Except TdErr (List String × List String) :=
  (lookupTargetType P types type rev) >>= fun targetType =>
  (getTypeHash P fuel types type rev) >>= fun typeHash =>
  targetType.foldlM (encodeDataField ev types type data rev) (["felt"], [typeHash])

/-- Body of `getStructHash`, abstracted over the value encoder. -/
def getStructHashAux (P : Prims) (fuel : Nat)
    (ev : TypesDict → String → JsValue → Context → Revision → Except TdErr (String × String))
    (types : TypesDict) (type : String) (data : JsValue) (rev : Revision) :
    Except TdErr String :=
  (encodeDataAux P fuel ev types type data rev).map
    (fun p => (revisionConfiguration P rev).hashMethod (p.2.map BigNumberish.str))

/-- The `enum` case of `encodeValue` under the Active revision: variant
entry from the value object, variant holder via the parent context's
first field's `contains`, then index and element-wise payload encoding.
(A JS object lookup with an `undefined` key reads the key "undefined".) -/
def encodeEnumValue (P : Prims)
    (ev : TypesDict → String → JsValue → Context → Revision → Except TdErr (String × String))
    (types : TypesDict) (type : String) (data : JsValue) (ctx : Context)
    (rev : Revision) : Except TdErr (String × String) :=
  (jsEntries data) >>= fun entries =>
    match entries.head? with
    | none => throw (TdErr.runtime "destructure of undefined")
    | some (variantKey, variantData) =>
      match tlookup types (ctx.parent.getD "undefined") with
      | none => throw (TdErr.runtime "contains of undefined")
      | some parentFields =>
      match parentFields.head? with
      | none => throw (TdErr.runtime "contains of undefined")
      | some parentType0 =>
      match tlookup types (parentType0.contains.getD "undefined") with
      | none => throw (TdErr.runtime "find of undefined")
      | some enumType =>
      match enumType.find? (fun t => t.name == variantKey) with
      | none => throw (TdErr.runtime "type of undefined")
      | some variantType =>
        (((jsSlice1m1 variantType.type).splitOn ",").enum.mapM (fun p =>
          if p.2 = "" then pure p.2
          else
            (jsIndex variantData p.1) >>= fun subtypeData =>
              (ev types p.2 subtypeData {} rev).map (fun r => r.2))).map
          (fun encodedSubtypes =>
            (type, (revisionConfiguration P rev).hashMethod
              (BigNumberish.num
                (Int.ofNat (enumType.findIdx (fun t => t.name == variantKey))) ::
                encodedSubtypes.map BigNumberish.str)))

/-- The `merkletree` case of `encodeValue`: leaf type from the parent's
`contains`, leaves encoded against it, Merkle root with the revision's
pair hash, tagged `felt`. -/
def encodeMerkleValue (P : Prims)
    (ev : TypesDict → String → JsValue → Context → Revision → Except TdErr (String × String))
    (types : TypesDict) (data : JsValue) (ctx : Context) (rev : Revision) :
    Except TdErr (String × String) :=
  (getMerkleTreeType types ctx) >>= fun merkleTreeType =>
    match data with
    | JsValue.varr structs =>
      (structs.mapM (fun struct =>
        (ev types merkleTreeType struct {} rev).map (fun r => r.2))).map
        (fun structHashes =>
          ("felt", P.merkleRootOf structHashes
            (revisionConfiguration P rev).hashMerkleMethod))
    | _ => throw (TdErr.runtime "map of non-array")

/-- The primitive/special-tag switch of `encodeValue` (everything after
the struct and array dispatches), abstracted over the value encoder. -/
def encodePrimitiveValue (P : Prims)
    (ev : TypesDict → String → JsValue → Context → Revision → Except TdErr (String × String))
    (types : TypesDict) (type : String) (data : JsValue) (ctx : Context)
    (rev : Revision) : Except TdErr (String × String) :=
  match type with
  | "enum" =>
    if rev = Revision.ACTIVE then encodeEnumValue P ev types type data ctx rev
    else (getHex P data).map (fun h => (type, h))
  | "merkletree" => encodeMerkleValue P ev types data ctx rev
  | "selector" =>
    match data with
    | JsValue.vstr s => pure ("felt", prepareSelector P s)
    | _ => throw (TdErr.runtime "selector expects a string")
  | "string" =>
    if rev = Revision.ACTIVE then
      match data with
      | JsValue.vstr s =>
        pure (type, (revisionConfiguration P rev).hashMethod
          (BigNumberish.num (Int.ofNat (P.byteArrayFromString s).1.length) ::
            (P.byteArrayFromString s).1 ++
              [(P.byteArrayFromString s).2.1,
               BigNumberish.num (P.byteArrayFromString s).2.2]))
      | _ => throw (TdErr.runtime "byte array expects a string")
    else (getHex P data).map (fun h => (type, h))
  | "i128" =>
    if rev = Revision.ACTIVE then
      match toBigIntV data with
      | none => throw (TdErr.conversion "BigInt conversion")
      | some value =>
        (assertRange (JsValue.vint value) type RANGE_I128_MIN RANGE_I128_MAX) >>=
          fun _ =>
            pure (type, intToHexStr (if value < 0 then PRIME + value else value))
    else (getHex P data).map (fun h => (type, h))
  | "timestamp" | "u128" =>
    if rev = Revision.ACTIVE then
      (assertRange data type RANGE_U128_MIN RANGE_U128_MAX) >>= fun _ =>
        (getHex P data).map (fun h => (type, h))
    else (getHex P data).map (fun h => (type, h))
  | "felt" | "shortstring" =>
    if rev = Revision.ACTIVE then
      (getHex P data) >>= fun h =>
        (assertRange (JsValue.vstr h) type RANGE_FELT_MIN RANGE_FELT_MAX) >>= fun _ =>
          (getHex P data).map (fun h2 => (type, h2))
    else (getHex P data).map (fun h => (type, h))
  | "ClassHash" | "ContractAddress" =>
    if rev = Revision.ACTIVE then
      (assertRange data type RANGE_FELT_MIN RANGE_FELT_MAX) >>= fun _ =>
        (getHex P data).map (fun h => (type, h))
    else (getHex P data).map (fun h => (type, h))
  | "bool" =>
    if rev = Revision.ACTIVE then
      match data with
      | JsValue.vbool _ => (getHex P data).map (fun h => (type, h))
      | _ => throw (TdErr.typeMismatch type)
    else (getHex P data).map (fun h => (type, h))
  | _ =>
    if rev = Revision.ACTIVE then throw (TdErr.unsupportedType type)
    else (getHex P data).map (fun h => (type, h))

/-- `encodeValue`: the dispatch core. Fueled; each recursive step burns
one unit (the source recurses unboundedly on cyclic struct data). -/
def encodeValue (P : Prims) :
    Nat → TypesDict → String → JsValue → Context → Revision →
      Except TdErr (String × String)
  | 0, _, _, _, _, _ => throw TdErr.nonTermination
  | fuel + 1, types, type, data, ctx, rev =>
    match tlookup types type with
    | some _ =>
      (getStructHashAux P fuel (fun a b c d e => encodeValue P fuel a b c d e)
        types type data rev).map (fun h => (type, h))
    | none =>
    match tlookup (revisionConfiguration P rev).presetTypes type with
    | some _ =>
      (getStructHashAux P fuel (fun a b c d e => encodeValue P fuel a b c d e)
        (revisionConfiguration P rev).presetTypes type data rev).map
        (fun h => (type, h))
    | none =>
    if endsWithStar type then
      match data with
      | JsValue.varr entries =>
        (entries.mapM (fun entry =>
          (encodeValue P fuel types (type.dropRight 1) entry {} rev).map
            (fun r => r.2))).map
          (fun hashes =>
            (type, (revisionConfiguration P rev).hashMethod
              (hashes.map BigNumberish.str)))
      | _ => throw (TdErr.runtime "map of non-array")
    else
      encodePrimitiveValue P (fun a b c d e => encodeValue P fuel a b c d e)
        types type data ctx rev

/-- `encodeData`. -/
def encodeData (P : Prims) (fuel : Nat) (types : TypesDict) (type : String)
    (data : JsValue) (rev : Revision) : Except TdErr (List String × List String) :=
  encodeDataAux P fuel (fun a b c d e => encodeValue P fuel a b c d e)
    types type data rev

/-- `getStructHash`: element-hash of the encoded value list. -/
def getStructHash (P : Prims) (fuel : Nat) (types : TypesDict) (type : String)
    (data : JsValue) (rev : Revision) : Except TdErr String :=
  (encodeData P fuel types type data rev).map
    (fun p => (revisionConfiguration P rev).hashMethod (p.2.map BigNumberish.str))

/-- `encodeShortString('StarkNet Message')` from the short-string
collaborator (its failure would be a thrown conversion error; the real
collaborator never fails on this constant). -/
def starkNetMessageWord (P : Prims) : Except TdErr String :=
  match P.encodeShortString "StarkNet Message" with
  | some s => pure s
  | none => throw (TdErr.conversion "encodeShortString failed")

/-- `getMessageHash`: validate, resolve the revision, hash domain and
message structs, and combine with the `StarkNet Message` prefix and the
account. -/
def getMessageHash (P : Prims) (fuel : Nat) (td : TypedData)
    (account : BigNumberish) : Except TdErr String :=
  if ¬ validateTypedData P td then throw TdErr.schemaMismatch
  else
    match identifyRevision P td with
    | none => throw (TdErr.runtime "unreachable: validation resolved a revision")
    | some rev =>
      (starkNetMessageWord P) >>= fun sms =>
      (getStructHash P fuel td.types (revisionConfiguration P rev).domain
        td.domain rev) >>= fun domainHash =>
      (getStructHash P fuel td.types td.primaryType td.message rev) >>=
        fun messageHash =>
      pure ((revisionConfiguration P rev).hashMethod
        [BigNumberish.str sms, BigNumberish.str domainHash, account,
          BigNumberish.str messageHash])

/-! ## Concrete sample collaborators and documents (used by witnesses) -/

def bnRender : BigNumberish → String
  | BigNumberish.num n => toString n
  | BigNumberish.str s => s

/-- Big-endian byte packing of an ASCII string (the real short-string
packing semantics). -/
def packShort (s : String) : Int :=
  Int.ofNat (s.data.foldl (fun a c => a * 256 + c.toNat) 0)

/-- A concrete, executable instantiation of the collaborator bundle: hash
functions build readable tags, the selector hash prefixes the name, the
Merkle root folds the pair hash, sentinels are the real `'1'`/`'0'`. -/
def samplePrims : Prims :=
  { computePedersenHashOnElements := fun l =>
      "PD[" ++ String.intercalate "," (l.map bnRender) ++ "]"
    computePoseidonHashOnElements := fun l =>
      "PO[" ++ String.intercalate "," (l.map bnRender) ++ "]"
    computePedersenHash := fun a b => "pd(" ++ a ++ "," ++ b ++ ")"
    computePoseidonHash := fun a b => "po(" ++ a ++ "," ++ b ++ ")"
    getSelectorFromName := fun s => "sel:" ++ s
    merkleRootOf := fun leaves pair => leaves.foldl pair "0x0"
    encodeShortString := fun s =>
      if s.length ≤ 31 then some (intToHexStr (packShort s)) else none
    byteArrayFromString := fun s =>
      ([], BigNumberish.num (packShort s), Int.ofNat s.length)
    activeSentinel := JsValue.vstr "1"
    legacySentinel := JsValue.vstr "0" }

/-- A simple Legacy document (domain `StarkNetDomain`, primary `Mail`). -/
def mailDoc : TypedData :=
  { types := [("StarkNetDomain", [{ name := "name", type := "felt" }]),
              ("Mail", [{ name := "msg", type := "felt" }])]
    primaryType := "Mail"
    domain := JsValue.vobj [("name", JsValue.vstr "1")]
    message := JsValue.vobj [("msg", JsValue.vint 5)] }

/-! ## Derived definitions used by the verification -/

/-- The per-fields fold of `getDependencies` from an arbitrary accumulator. -/
def exploreFrom (types : TypesDict) (rev : Revision) (fuel : Nat)
    (fields : List StarknetType) (prev : List String) : Option (List String) :=
  fields.foldlM (fun previous f =>
    (getDependencies types rev fuel f.type previous (f.contains.getD "")).map
      (fun r => previous ++ r.filter (fun d => !previous.contains d))) prev

def specEscapeElement (esc : String → String) (e : String) : String :=
  if e = "" then e else esc e

/-- Modelled from the claim's words: the rendered type string of one field
(an Active `enum` field is rendered via its `contains` reference; a
parenthesized tuple is escaped element-wise with empty elements passing
through unescaped; every other type string is escaped whole). -/
def specFieldType (esc : String → String) (rev : Revision) (t : StarknetType) :
    String :=
  let target :=
    if rev = Revision.ACTIVE ∧ t.type = "enum" then t.contains.getD "" else t.type
  if isParenTuple target then
    "(" ++ String.intercalate ","
      (((jsSlice1m1 target).splitOn ",").map (specEscapeElement esc)) ++ ")"
  else esc target

/-- Modelled from the claim's words: the block
`EscapedName(field1Name:field1Type,...)` of one type. -/
def specTypeBlock (allTypes : TypesDict) (esc : String → String) (rev : Revision)
    (name : String) : String :=
  esc name ++ "(" ++ String.intercalate ","
    (((tlookup allTypes name).getD []).map
      (fun t => esc t.name ++ ":" ++ specFieldType esc rev t)) ++ ")"

/-- Modelled from the claim's words: the whole encoded type string — the
primary type first, then its other dependencies sorted lexicographically,
each rendered as a block, concatenated with no separator; the empty
string when the primary type is not found. -/
def encodeTypeSpec (P : Prims) (fuel : Nat) (types : TypesDict) (type : String)
    (rev : Revision) : Option String :=
  (getDependencies (mergedTypes rev types) rev fuel type [] "").map (fun deps =>
    match deps with
    | [] => ""
    | primary :: ds =>
      String.join ((primary :: sortStrings ds).map
        (specTypeBlock (mergedTypes rev types)
          (revisionConfiguration P rev).escapeTypeString rev)))

/-- Well-formedness: every Active `enum` field among the listed types
carries its `contains` reference (the source crashes otherwise). -/
def enumContainsOK (allTypes : TypesDict) (rev : Revision) (l : List String) :
    Bool :=
  l.all (fun dep =>
    ((tlookup allTypes dep).getD []).all (fun f =>
      !((rev == Revision.ACTIVE) && (f.type == "enum") && f.contains.isNone)))

/-- A minimal Active document: `StarknetDomain` declared and the domain's
`revision` field set to the Active sentinel value. -/
def activeDoc : TypedData :=
  { types := [("StarknetDomain",
        [{ name := "name", type := "shortstring" },
         { name := "revision", type := "shortstring" }]),
      ("Msg", [{ name := "x", type := "u128" }])]
    primaryType := "Msg"
    domain := JsValue.vobj [("name", JsValue.vstr "d"), ("revision", JsValue.vstr "1")]
    message := JsValue.vobj [("x", JsValue.vint 1)] }

/-- A valid Legacy document whose `message` is the empty object: `Object`
values are truthy in JS, so it passes validation. -/
def emptyMessageDoc : TypedData :=
  { types := [("StarkNetDomain", [])]
    primaryType := "StarkNetDomain"
    domain := JsValue.vobj []
    message := JsValue.vobj [] }

/-- A document declaring neither `StarknetDomain` nor `StarkNetDomain`:
no revision resolves, so validation fails. -/
def noDomainDoc : TypedData :=
  { types := [("T", [])]
    primaryType := "T"
    domain := JsValue.vobj []
    message := JsValue.vobj [] }

/-! ## General lemmas -/

theorem jsStrictEqPrim_eq_true_iff (a b : JsValue) :
    jsStrictEqPrim a b = true ↔ (a = b ∧ b.isPrim = true) := by
  cases a <;> cases b <;> simp [jsStrictEqPrim, JsValue.isPrim]

theorem activeCondition_iff (P : Prims) (td : TypedData)
    (hPA : P.activeSentinel.isPrim = true) :
    activeCondition P td = true ↔
    (tcontainsKey td.types "StarknetDomain" = true ∧
      jsGetProp td.domain "revision" = some P.activeSentinel) := by
  unfold activeCondition
  rw [Bool.and_eq_true]
  cases h : jsGetProp td.domain "revision" with
  | none => simp [revisionConfiguration]
  | some v => simp [revisionConfiguration, jsStrictEqPrim_eq_true_iff, hPA]

theorem legacyCondition_iff (P : Prims) (td : TypedData)
    (hPL : P.legacySentinel.isPrim = true) :
    legacyCondition P td = true ↔
    (tcontainsKey td.types "StarkNetDomain" = true ∧
      (jsGetProp td.domain "revision" = none ∨
       jsGetProp td.domain "revision" = some JsValue.vnull ∨
       jsGetProp td.domain "revision" = some P.legacySentinel)) := by
  unfold legacyCondition
  rw [Bool.and_eq_true]
  cases h : jsGetProp td.domain "revision" with
  | none => simp [revisionConfiguration]
  | some v =>
    cases v <;> simp [revisionConfiguration, jsStrictEqPrim_eq_true_iff, hPL]

theorem identifyRevision_active_iff (P : Prims) (td : TypedData) :
    identifyRevision P td = some Revision.ACTIVE ↔ activeCondition P td = true := by
  unfold identifyRevision
  cases h1 : activeCondition P td <;> cases h2 : legacyCondition P td <;> simp

theorem identifyRevision_legacy_iff (P : Prims) (td : TypedData) :
    identifyRevision P td = some Revision.LEGACY ↔
      (activeCondition P td = false ∧ legacyCondition P td = true) := by
  unfold identifyRevision
  cases h1 : activeCondition P td <;> cases h2 : legacyCondition P td <;> simp

theorem identifyRevision_none_iff (P : Prims) (td : TypedData) :
    identifyRevision P td = none ↔
      (activeCondition P td = false ∧ legacyCondition P td = false) := by
  unfold identifyRevision
  cases h1 : activeCondition P td <;> cases h2 : legacyCondition P td <;> simp

theorem activeCondition_eq_false_of_legacyRHS (P : Prims) (td : TypedData)
    (hPA : P.activeSentinel.isPrim = true)
    (hNE : P.activeSentinel ≠ P.legacySentinel)
    (hNN : P.activeSentinel ≠ JsValue.vnull)
    (h : jsGetProp td.domain "revision" = none ∨
         jsGetProp td.domain "revision" = some JsValue.vnull ∨
         jsGetProp td.domain "revision" = some P.legacySentinel) :
    activeCondition P td = false := by
  rw [← Bool.not_eq_true, activeCondition_iff P td hPA]
  rintro ⟨-, hrv⟩
  rcases h with h | h | h <;> rw [h] at hrv
  · exact Option.noConfusion hrv
  · exact hNN (Option.some.inj hrv).symm
  · exact hNE ((Option.some.inj hrv).symm)

theorem exceptBind_ne {α β : Type} {E : TdErr} {x : Except TdErr α}
    {f : α → Except TdErr β} (hx : x ≠ Except.error E)
    (hf : ∀ a, f a ≠ Except.error E) : (x >>= f) ≠ Except.error E := by
  cases x with
  | error e => simpa [Bind.bind, Except.bind] using hx
  | ok a => simpa [Bind.bind, Except.bind] using hf a

theorem exceptMap_ne {α β : Type} {E : TdErr} {x : Except TdErr α}
    {g : α → β} (hx : x ≠ Except.error E) : x.map g ≠ Except.error E := by
  cases x with
  | error e => simpa [Except.map] using hx
  | ok a => simp [Except.map]

theorem exceptMapM_ne {α β : Type} {E : TdErr} {l : List α}
    {f : α → Except TdErr β} (hf : ∀ a ∈ l, f a ≠ Except.error E) :
    l.mapM f ≠ Except.error E := by
  induction l with
  | nil => simp [List.mapM_nil, List.mapM.loop, Pure.pure, Except.pure]
  | cons a as ih =>
    rw [List.mapM_cons]
    refine exceptBind_ne (hf a (by simp)) (fun b => ?_)
    refine exceptBind_ne (ih (fun x hx => hf x (by simp [hx]))) (fun bs => ?_)
    simp [Pure.pure, Except.pure]

theorem exceptFoldlM_ne {α β : Type} {E : TdErr} {l : List α}
    {f : β → α → Except TdErr β}
    (hf : ∀ b a, a ∈ l → f b a ≠ Except.error E) :
    ∀ init, l.foldlM f init ≠ Except.error E := by
  induction l with
  | nil => intro init; simp [List.foldlM_nil, Pure.pure, Except.pure]
  | cons a as ih =>
    intro init
    rw [List.foldlM_cons]
    refine exceptBind_ne (hf init a (by simp)) (fun b => ?_)
    exact ih (fun b' a' ha' => hf b' a' (by simp [ha'])) b

theorem exceptMapMloop_ne {α β : Type} {E : TdErr} {f : α → Except TdErr β}
    (l : List α) (acc : List β)
    (hf : ∀ a ∈ l, f a ≠ Except.error E) :
    List.mapM.loop f l acc ≠ Except.error E := by
  induction l generalizing acc with
  | nil => simp [List.mapM.loop, Pure.pure, Except.pure]
  | cons a as ih =>
    rw [List.mapM.loop]
    refine exceptBind_ne (hf a (by simp)) (fun b => ?_)
    exact ih _ (fun x hx => hf x (by simp [hx]))

theorem exceptPure_ne {α : Type} {E : TdErr} (a : α) :
    (pure a : Except TdErr α) ≠ Except.error E := by
  simp [Pure.pure, Except.pure]

theorem exceptOk_ne {α : Type} {E : TdErr} (a : α) :
    (Except.ok a : Except TdErr α) ≠ Except.error E := by
  simp

theorem exceptThrow_ne {α : Type} {E e : TdErr} (h : e ≠ E) :
    (throw e : Except TdErr α) ≠ Except.error E := by
  simpa [throw, throwThe, MonadExceptOf.throw] using h

theorem exceptBind_ok {α β : Type} (a : α) (f : α → Except TdErr β) :
    (Except.ok a >>= f) = f a := rfl

theorem exceptBind_err {α β : Type} (e : TdErr) (f : α → Except TdErr β) :
    ((Except.error e : Except TdErr α) >>= f) = Except.error e := rfl

theorem exceptPure_bind {α β : Type} (a : α) (f : α → Except TdErr β) :
    ((pure a : Except TdErr α) >>= f) = f a := rfl

theorem exceptMap_ok {α β : Type} (g : α → β) (a : α) :
    (Except.ok a : Except TdErr α).map g = Except.ok (g a) := rfl

theorem exceptMap_err {α β : Type} (g : α → β) (e : TdErr) :
    (Except.error e : Except TdErr α).map g = Except.error e := rfl

theorem exceptMap_error_iff {α β : Type} {x : Except TdErr α} {g : α → β}
    {e : TdErr} : x.map g = Except.error e ↔ x = Except.error e := by
  cases x <;> simp [Except.map]

theorem encodeValue_primitive (P : Prims) (fuel : Nat) (types : TypesDict)
    (type : String) (data : JsValue) (ctx : Context) (rev : Revision)
    (h1 : tlookup types type = none)
    (h2 : tlookup (revisionConfiguration P rev).presetTypes type = none)
    (h3 : endsWithStar type = false) :
    encodeValue P (fuel + 1) types type data ctx rev =
      encodePrimitiveValue P (fun a b c d e => encodeValue P fuel a b c d e)
        types type data ctx rev := by
  simp only [encodeValue, h1, h2, h3, Bool.false_eq_true, if_false]

theorem getHex_ne_unsupported (P : Prims) (v : JsValue) (s : String) :
    getHex P v ≠ Except.error (TdErr.unsupportedType s) := by
  unfold getHex
  repeat' split
  all_goals simp [Pure.pure, Except.pure, throw, throwThe, MonadExceptOf.throw]

theorem assertRange_ok (data : JsValue) (type : String) (min max v : Int)
    (h : toBigIntV data = some v) (hlo : min ≤ v) (hhi : v ≤ max) :
    assertRange data type min max = Except.ok () := by
  unfold assertRange
  rw [h]
  dsimp only
  rw [if_pos ⟨hlo, hhi⟩]
  rfl

theorem assertRange_err (data : JsValue) (type : String) (min max v : Int)
    (h : toBigIntV data = some v) (hout : ¬ (min ≤ v ∧ v ≤ max)) :
    assertRange data type min max = Except.error (TdErr.rangeViolation type) := by
  unfold assertRange
  rw [h]
  dsimp only
  rw [if_neg hout]
  rfl

theorem getHex_ne_schema (P : Prims) (v : JsValue) :
    getHex P v ≠ Except.error TdErr.schemaMismatch := by
  unfold getHex
  repeat' split
  all_goals simp [Pure.pure, Except.pure, throw, throwThe, MonadExceptOf.throw]

theorem assertRange_ne_schema (data : JsValue) (type : String) (min max : Int) :
    assertRange data type min max ≠ Except.error TdErr.schemaMismatch := by
  unfold assertRange
  repeat' split
  all_goals simp [Pure.pure, Except.pure, throw, throwThe, MonadExceptOf.throw]

theorem getMerkleTreeType_ne_schema (types : TypesDict) (ctx : Context) :
    getMerkleTreeType types ctx ≠ Except.error TdErr.schemaMismatch := by
  unfold getMerkleTreeType
  repeat' split
  all_goals simp [Pure.pure, Except.pure, throw, throwThe, MonadExceptOf.throw]

theorem jsEntries_ne_schema (v : JsValue) :
    jsEntries v ≠ Except.error TdErr.schemaMismatch := by
  unfold jsEntries
  repeat' split
  all_goals simp [Pure.pure, Except.pure, throw, throwThe, MonadExceptOf.throw]

theorem jsIndex_ne_schema (v : JsValue) (i : Nat) :
    jsIndex v i ≠ Except.error TdErr.schemaMismatch := by
  unfold jsIndex
  repeat' split
  all_goals simp [Pure.pure, Except.pure, throw, throwThe, MonadExceptOf.throw]

theorem jsGetField_ne_schema (v : JsValue) (name : String) :
    jsGetField v name ≠ Except.error TdErr.schemaMismatch := by
  unfold jsGetField
  repeat' split
  all_goals simp [Pure.pure, Except.pure, throw, throwThe, MonadExceptOf.throw]

theorem renderFieldCode_ne_schema (esc : String → String) (rev : Revision)
    (t : StarknetType) :
    renderFieldCode esc rev t ≠ Except.error TdErr.schemaMismatch := by
  unfold renderFieldCode
  refine exceptMap_ne ?_
  unfold encodeTypeTarget
  repeat' split
  all_goals simp [Pure.pure, Except.pure, throw, throwThe, MonadExceptOf.throw]

theorem typeBlock_ne_schema (allTypes : TypesDict) (esc : String → String)
    (rev : Revision) (dependency : String) :
    typeBlock allTypes esc rev dependency ≠ Except.error TdErr.schemaMismatch := by
  unfold typeBlock
  split
  · simp [throw, throwThe, MonadExceptOf.throw]
  · exact exceptMap_ne (exceptMapM_ne (fun t _ => renderFieldCode_ne_schema _ _ _))

theorem encodeType_ne_schema (P : Prims) (fuel : Nat) (types : TypesDict)
    (type : String) (rev : Revision) :
    encodeType P fuel types type rev ≠ Except.error TdErr.schemaMismatch := by
  unfold encodeType
  split
  · simp [throw, throwThe, MonadExceptOf.throw]
  · exact exceptMap_ne (exceptMapM_ne (fun dep _ => typeBlock_ne_schema _ _ _ _))

theorem getTypeHash_ne_schema (P : Prims) (fuel : Nat) (types : TypesDict)
    (type : String) (rev : Revision) :
    getTypeHash P fuel types type rev ≠ Except.error TdErr.schemaMismatch := by
  unfold getTypeHash
  exact exceptMap_ne (encodeType_ne_schema P fuel types type rev)

theorem lookupTargetType_ne_schema (P : Prims) (types : TypesDict) (type : String)
    (rev : Revision) :
    lookupTargetType P types type rev ≠ Except.error TdErr.schemaMismatch := by
  unfold lookupTargetType
  repeat' split
  all_goals simp [Pure.pure, Except.pure, throw, throwThe, MonadExceptOf.throw]

theorem encodeDataField_ne_schema
    (ev : TypesDict → String → JsValue → Context → Revision → Except TdErr (String × String))
    (hev : ∀ a b c d e, ev a b c d e ≠ Except.error TdErr.schemaMismatch)
    (types : TypesDict) (type : String) (data : JsValue) (rev : Revision)
    (acc : List String × List String) (field : StarknetType) :
    encodeDataField ev types type data rev acc field ≠ Except.error TdErr.schemaMismatch := by
  unfold encodeDataField
  refine exceptBind_ne (jsGetField_ne_schema _ _) (fun mv => ?_)
  repeat' split
  · simp [throw, throwThe, MonadExceptOf.throw]
  · simp [throw, throwThe, MonadExceptOf.throw]
  · exact exceptMap_ne (hev _ _ _ _ _)

theorem encodeDataAux_ne_schema (P : Prims) (fuel : Nat)
    (ev : TypesDict → String → JsValue → Context → Revision → Except TdErr (String × String))
    (hev : ∀ a b c d e, ev a b c d e ≠ Except.error TdErr.schemaMismatch)
    (types : TypesDict) (type : String) (data : JsValue) (rev : Revision) :
    encodeDataAux P fuel ev types type data rev ≠ Except.error TdErr.schemaMismatch := by
  unfold encodeDataAux
  refine exceptBind_ne (lookupTargetType_ne_schema P types type rev) (fun tt => ?_)
  refine exceptBind_ne (getTypeHash_ne_schema P fuel types type rev) (fun th => ?_)
  exact exceptFoldlM_ne
    (fun acc field _ => encodeDataField_ne_schema ev hev types type data rev acc field) _

theorem getStructHashAux_ne_schema (P : Prims) (fuel : Nat)
    (ev : TypesDict → String → JsValue → Context → Revision → Except TdErr (String × String))
    (hev : ∀ a b c d e, ev a b c d e ≠ Except.error TdErr.schemaMismatch)
    (types : TypesDict) (type : String) (data : JsValue) (rev : Revision) :
    getStructHashAux P fuel ev types type data rev ≠ Except.error TdErr.schemaMismatch := by
  unfold getStructHashAux
  exact exceptMap_ne (encodeDataAux_ne_schema P fuel ev hev types type data rev)

theorem encodeEnumValue_ne_schema (P : Prims)
    (ev : TypesDict → String → JsValue → Context → Revision → Except TdErr (String × String))
    (hev : ∀ a b c d e, ev a b c d e ≠ Except.error TdErr.schemaMismatch)
    (types : TypesDict) (type : String) (data : JsValue) (ctx : Context)
    (rev : Revision) :
    encodeEnumValue P ev types type data ctx rev ≠ Except.error TdErr.schemaMismatch := by
  unfold encodeEnumValue
  refine exceptBind_ne (jsEntries_ne_schema _) (fun entries => ?_)
  repeat' split
  all_goals try simp [throw, throwThe, MonadExceptOf.throw]
  refine exceptMap_ne (exceptMapMloop_ne _ _ (fun p _ => ?_))
  split
  · simp [Pure.pure, Except.pure]
  · exact exceptBind_ne (jsIndex_ne_schema _ _)
      (fun sd => exceptMap_ne (hev _ _ _ _ _))

theorem encodeMerkleValue_ne_schema (P : Prims)
    (ev : TypesDict → String → JsValue → Context → Revision → Except TdErr (String × String))
    (hev : ∀ a b c d e, ev a b c d e ≠ Except.error TdErr.schemaMismatch)
    (types : TypesDict) (data : JsValue) (ctx : Context) (rev : Revision) :
    encodeMerkleValue P ev types data ctx rev ≠ Except.error TdErr.schemaMismatch := by
  unfold encodeMerkleValue
  refine exceptBind_ne (getMerkleTreeType_ne_schema _ _) (fun mt => ?_)
  split
  · exact exceptMap_ne (exceptMapM_ne (fun s _ => exceptMap_ne (hev _ _ _ _ _)))
  · simp [throw, throwThe, MonadExceptOf.throw]

theorem encodePrimitiveValue_ne_schema (P : Prims)
    (ev : TypesDict → String → JsValue → Context → Revision → Except TdErr (String × String))
    (hev : ∀ a b c d e, ev a b c d e ≠ Except.error TdErr.schemaMismatch)
    (types : TypesDict) (type : String) (data : JsValue) (ctx : Context)
    (rev : Revision) :
    encodePrimitiveValue P ev types type data ctx rev ≠ Except.error TdErr.schemaMismatch := by
  unfold encodePrimitiveValue
  repeat' split
  all_goals try (exact encodeEnumValue_ne_schema P ev hev _ _ _ _ _)
  all_goals try (exact encodeMerkleValue_ne_schema P ev hev _ _ _ _)
  all_goals try (exact exceptMap_ne (getHex_ne_schema _ _))
  all_goals try (exact exceptBind_ne (assertRange_ne_schema _ _ _ _) (fun x => exceptMap_ne (getHex_ne_schema _ _)))
  all_goals try (exact exceptBind_ne (assertRange_ne_schema _ _ _ _) (fun x => exceptOk_ne _))
  all_goals try (exact exceptBind_ne (getHex_ne_schema _ _) (fun h => exceptBind_ne (assertRange_ne_schema _ _ _ _) (fun x => exceptMap_ne (getHex_ne_schema _ _))))
  all_goals try (exact exceptPure_ne _)
  all_goals exact exceptThrow_ne (by simp)

theorem encodeValue_ne_schema (P : Prims) :
    ∀ fuel types type data ctx rev,
      encodeValue P fuel types type data ctx rev ≠ Except.error TdErr.schemaMismatch := by
  intro fuel
  induction fuel with
  | zero =>
    intro types type data ctx rev
    simp [encodeValue, throw, throwThe, MonadExceptOf.throw]
  | succ fuel ih =>
    intro types type data ctx rev
    simp only [encodeValue]
    split
    · exact exceptMap_ne (getStructHashAux_ne_schema P fuel _ ih _ _ _ _)
    · split
      · exact exceptMap_ne (getStructHashAux_ne_schema P fuel _ ih _ _ _ _)
      · split
        · split
          · exact exceptMap_ne (exceptMapM_ne (fun entry _ => exceptMap_ne (ih _ _ _ _ _)))
          · simp [throw, throwThe, MonadExceptOf.throw]
        · exact encodePrimitiveValue_ne_schema P _ ih types type data ctx rev

theorem encodeData_ne_schema (P : Prims) (fuel : Nat) (types : TypesDict)
    (type : String) (data : JsValue) (rev : Revision) :
    encodeData P fuel types type data rev ≠ Except.error TdErr.schemaMismatch := by
  unfold encodeData
  exact encodeDataAux_ne_schema P fuel _ (encodeValue_ne_schema P fuel) types type data rev

theorem getStructHash_ne_schema (P : Prims) (fuel : Nat) (types : TypesDict)
    (type : String) (data : JsValue) (rev : Revision) :
    getStructHash P fuel types type data rev ≠ Except.error TdErr.schemaMismatch := by
  unfold getStructHash
  exact exceptMap_ne (encodeData_ne_schema P fuel types type data rev)

theorem getMessageHash_ne_schema_of_valid (P : Prims) (fuel : Nat)
    (td : TypedData) (account : BigNumberish)
    (h : validateTypedData P td = true) :
    getMessageHash P fuel td account ≠ Except.error TdErr.schemaMismatch := by
  unfold getMessageHash
  simp only [h]
  rw [if_neg (by simp)]
  split
  · exact exceptThrow_ne (by simp)
  · refine exceptBind_ne ?_ (fun sms => ?_)
    · unfold starkNetMessageWord
      split
      · exact exceptPure_ne _
      · exact exceptThrow_ne (by simp)
    · refine exceptBind_ne (getStructHash_ne_schema _ _ _ _ _ _) (fun dh => ?_)
      refine exceptBind_ne (getStructHash_ne_schema _ _ _ _ _ _) (fun mh => ?_)
      exact exceptPure_ne _

theorem getMessageHash_schema_of_invalid (P : Prims) (fuel : Nat)
    (td : TypedData) (account : BigNumberish)
    (h : validateTypedData P td = false) :
    getMessageHash P fuel td account = Except.error TdErr.schemaMismatch := by
  unfold getMessageHash
  rw [if_pos (by simp [h])]
  rfl

theorem exploreFrom_nil (types : TypesDict) (rev : Revision) (fuel : Nat)
    (prev : List String) : exploreFrom types rev fuel [] prev = some prev := rfl

theorem exploreFrom_cons (types : TypesDict) (rev : Revision) (fuel : Nat)
    (f : StarknetType) (fs : List StarknetType) (prev : List String) :
    exploreFrom types rev fuel (f :: fs) prev =
      (getDependencies types rev fuel f.type prev (f.contains.getD "")).bind
        (fun r => exploreFrom types rev fuel fs
          (prev ++ r.filter (fun d => !prev.contains d))) := by
  unfold exploreFrom
  rw [List.foldlM_cons]
  cases getDependencies types rev fuel f.type prev (f.contains.getD "") <;> rfl

theorem getDependencies_succ_eq (types : TypesDict) (rev : Revision) (fuel : Nat)
    (type : String) (deps : List String) (contains : String) :
    getDependencies types rev (fuel + 1) type deps contains =
      (if deps.contains (depNormalize rev contains type) then some deps
       else
        match tlookup types (depNormalize rev contains type) with
        | none => some deps
        | some fields =>
          (exploreFrom types rev fuel fields []).map
            (fun fold => depNormalize rev contains type :: fold)) := rfl

theorem getDependencies_mono_succ (types : TypesDict) (rev : Revision) :
    ∀ fuel type deps contains r,
      getDependencies types rev fuel type deps contains = some r →
      getDependencies types rev (fuel + 1) type deps contains = some r := by
  intro fuel
  induction fuel with
  | zero =>
    intro type deps contains r h
    exact absurd h (by simp [getDependencies])
  | succ g ih =>
    intro type deps contains r h
    have hexp : ∀ fields prev fold,
        exploreFrom types rev g fields prev = some fold →
        exploreFrom types rev (g + 1) fields prev = some fold := by
      intro fields
      induction fields with
      | nil =>
        intro prev fold hf
        simpa [exploreFrom_nil] using hf
      | cons f fs ihf =>
        intro prev fold hf
        rw [exploreFrom_cons] at hf ⊢
        rcases hopt : getDependencies types rev g f.type prev (f.contains.getD "")
          with _ | r1
        · rw [hopt] at hf
          exact absurd hf (by simp)
        · rw [hopt] at hf
          rw [ih f.type prev (f.contains.getD "") r1 hopt]
          have hf' : exploreFrom types rev g fs
              (prev ++ r1.filter (fun d => !prev.contains d)) = some fold := hf
          exact ihf _ _ hf'
    rw [getDependencies_succ_eq] at h ⊢
    split at h
    next hc =>
      rw [if_pos hc]
      exact h
    next hc =>
      rw [if_neg hc]
      cases htl : tlookup types (depNormalize rev contains type) with
      | none =>
        rw [htl] at h
        exact h
      | some fields =>
        rw [htl] at h
        have h' : (exploreFrom types rev g fields []).map
            (fun fold => depNormalize rev contains type :: fold) = some r := h
        show (exploreFrom types rev (g + 1) fields []).map
            (fun fold => depNormalize rev contains type :: fold) = some r
        rcases hexp0 : exploreFrom types rev g fields [] with _ | fold
        · rw [hexp0] at h'
          exact absurd h' (by simp)
        · rw [hexp0] at h'
          rw [hexp fields [] fold hexp0]
          exact h'

theorem getDependencies_mono (types : TypesDict) (rev : Revision)
    {fuel fuel' : Nat} (hle : fuel ≤ fuel') :
    ∀ type deps contains r,
      getDependencies types rev fuel type deps contains = some r →
      getDependencies types rev fuel' type deps contains = some r := by
  induction hle with
  | refl => intro type deps contains r h; exact h
  | step _ ih =>
    intro type deps contains r h
    exact getDependencies_mono_succ types rev _ type deps contains r
      (ih type deps contains r h)

theorem exploreFrom_mono_succ (types : TypesDict) (rev : Revision) (g : Nat) :
    ∀ fields prev fold,
      exploreFrom types rev g fields prev = some fold →
      exploreFrom types rev (g + 1) fields prev = some fold := by
  intro fields
  induction fields with
  | nil =>
    intro prev fold hf
    simpa [exploreFrom_nil] using hf
  | cons f fs ihf =>
    intro prev fold hf
    rw [exploreFrom_cons] at hf ⊢
    rcases hopt : getDependencies types rev g f.type prev (f.contains.getD "")
      with _ | r1
    · rw [hopt] at hf
      exact absurd hf (by simp)
    · rw [hopt] at hf
      rw [getDependencies_mono_succ types rev g f.type prev (f.contains.getD "") r1 hopt]
      have hf' : exploreFrom types rev g fs
          (prev ++ r1.filter (fun d => !prev.contains d)) = some fold := hf
      exact ihf _ _ hf'

theorem exploreFrom_mono (types : TypesDict) (rev : Revision)
    {g g' : Nat} (hle : g ≤ g') :
    ∀ fields prev fold,
      exploreFrom types rev g fields prev = some fold →
      exploreFrom types rev g' fields prev = some fold := by
  induction hle with
  | refl => intro fields prev fold h; exact h
  | step _ ih =>
    intro fields prev fold h
    exact exploreFrom_mono_succ types rev _ fields prev fold (ih fields prev fold h)

theorem getDependencies_mem (types : TypesDict) (rev : Revision) :
    ∀ fuel type deps contains r x,
      getDependencies types rev fuel type deps contains = some r →
      x ∈ r → x ∉ deps →
      ∃ g fields fold, g < fuel ∧ tlookup types x = some fields ∧
        exploreFrom types rev g fields [] = some fold ∧ x ∉ fold := by
  intro fuel
  induction fuel using Nat.strong_induction_on with
  | _ fuel IH =>
    match fuel with
    | 0 =>
      intro type deps contains r x h
      exact absurd h (by simp [getDependencies])
    | g + 1 =>
      intro type deps contains r x h hx hnd
      have E : ∀ fields prev fold,
          exploreFrom types rev g fields prev = some fold →
          ∀ y, y ∈ fold → y ∈ prev ∨
            ∃ g' fields' fold', g' < g ∧ tlookup types y = some fields' ∧
              exploreFrom types rev g' fields' [] = some fold' ∧ y ∉ fold' := by
        intro fields
        induction fields with
        | nil =>
          intro prev fold hf y hy
          rw [exploreFrom_nil] at hf
          cases hf
          exact Or.inl hy
        | cons f fs ihf =>
          intro prev fold hf y hy
          rw [exploreFrom_cons] at hf
          rcases hopt : getDependencies types rev g f.type prev (f.contains.getD "")
            with _ | r1
          · rw [hopt] at hf
            exact absurd hf (by simp)
          · rw [hopt] at hf
            have hf' : exploreFrom types rev g fs
                (prev ++ r1.filter (fun d => !prev.contains d)) = some fold := hf
            rcases ihf _ fold hf' y hy with hyp | hex
            · rcases List.mem_append.mp hyp with h1 | h2
              · exact Or.inl h1
              · have hy1 : y ∈ r1 := List.mem_of_mem_filter h2
                have hynp : y ∉ prev := by
                  have hfp := List.of_mem_filter h2
                  simpa using hfp
                rcases IH g (by omega) f.type prev (f.contains.getD "") r1 y
                  hopt hy1 hynp with ⟨g', fl, fd, hlt, hl, he, hni⟩
                exact Or.inr ⟨g', fl, fd, hlt, hl, he, hni⟩
            · exact Or.inr hex
      rw [getDependencies_succ_eq] at h
      split at h
      next hc =>
        cases h
        exact absurd hx hnd
      next hc =>
        have hnds : depNormalize rev contains type ∉ deps := by
          simpa using hc
        cases htl : tlookup types (depNormalize rev contains type) with
        | none =>
          rw [htl] at h
          cases h
          exact absurd hx hnd
        | some fields =>
          rw [htl] at h
          have h' : (exploreFrom types rev g fields []).map
              (fun fold => depNormalize rev contains type :: fold) = some r := h
          rcases hexp0 : exploreFrom types rev g fields [] with _ | fold
          · rw [hexp0] at h'
            exact absurd h' (by simp)
          · rw [hexp0] at h'
            have hr : r = depNormalize rev contains type :: fold := by
              simpa using h'.symm
            have hnotin : depNormalize rev contains type ∉ fold := by
              intro hmem
              rcases E fields [] fold hexp0 _ hmem with habs | hex
              · simp at habs
              · obtain ⟨g', fl, fd, hlt, hl, he, hni⟩ := hex
                rw [htl] at hl
                have hfl : fields = fl := by injection hl
                subst hfl
                have hmono := exploreFrom_mono types rev
                  (show g' ≤ g from by omega) fields [] fd he
                rw [hexp0] at hmono
                have hfd : fold = fd := by injection hmono
                exact hni (hfd ▸ hmem)
            subst hr
            rcases List.mem_cons.mp hx with rfl | hxf
            · exact ⟨g, fields, fold, by omega, htl, hexp0, hnotin⟩
            · rcases E fields [] fold hexp0 x hxf with habs | hex
              · simp at habs
              · obtain ⟨g', fl, fd, hlt, hl, he, hni⟩ := hex
                exact ⟨g', fl, fd, by omega, hl, he, hni⟩

theorem getDependencies_nodup (types : TypesDict) (rev : Revision) :
    ∀ fuel type deps contains r, deps.Nodup →
      getDependencies types rev fuel type deps contains = some r → r.Nodup := by
  intro fuel
  induction fuel with
  | zero =>
    intro type deps contains r _ h
    exact absurd h (by simp [getDependencies])
  | succ g ih =>
    intro type deps contains r hnd h
    have h0 := h
    have F : ∀ fields prev, prev.Nodup → ∀ fold,
        exploreFrom types rev g fields prev = some fold → fold.Nodup := by
      intro fields
      induction fields with
      | nil =>
        intro prev hp fold hf
        rw [exploreFrom_nil] at hf
        cases hf
        exact hp
      | cons f fs ihf =>
        intro prev hp fold hf
        rw [exploreFrom_cons] at hf
        rcases hopt : getDependencies types rev g f.type prev (f.contains.getD "")
          with _ | r1
        · rw [hopt] at hf
          exact absurd hf (by simp)
        · rw [hopt] at hf
          have hf' : exploreFrom types rev g fs
              (prev ++ r1.filter (fun d => !prev.contains d)) = some fold := hf
          have hr1 : r1.Nodup := ih f.type prev (f.contains.getD "") r1 hp hopt
          have hprev' : (prev ++ r1.filter (fun d => !prev.contains d)).Nodup := by
            refine List.Nodup.append hp (hr1.filter _) ?_
            intro a ha haf
            have hfp := List.of_mem_filter haf
            have : a ∉ prev := by simpa using hfp
            exact this ha
          exact ihf _ hprev' fold hf'
    rw [getDependencies_succ_eq] at h
    split at h
    next hc =>
      cases h
      exact hnd
    next hc =>
      cases htl : tlookup types (depNormalize rev contains type) with
      | none =>
        rw [htl] at h
        cases h
        exact hnd
      | some fields =>
        rw [htl] at h
        have h' : (exploreFrom types rev g fields []).map
            (fun fold => depNormalize rev contains type :: fold) = some r := h
        rcases hexp0 : exploreFrom types rev g fields [] with _ | fold
        · rw [hexp0] at h'
          exact absurd h' (by simp)
        · rw [hexp0] at h'
          have hr : r = depNormalize rev contains type :: fold := by
            simpa using h'.symm
          subst hr
          refine List.nodup_cons.mpr ⟨?_, F fields [] List.nodup_nil fold hexp0⟩
          intro hmem
          have hnds : depNormalize rev contains type ∉ deps := by simpa using hc
          rcases getDependencies_mem types rev (g + 1) type deps contains
              (depNormalize rev contains type :: fold) (depNormalize rev contains type)
              h0 (List.mem_cons_self _ _) hnds with ⟨g', fl, fd, hlt, hl, he, hni⟩
          rw [htl] at hl
          have hfl : fields = fl := by injection hl
          subst hfl
          have hmono := exploreFrom_mono types rev
            (show g' ≤ g from by omega) fields [] fd he
          rw [hexp0] at hmono
          have hfd : fold = fd := by injection hmono
          exact hni (hfd ▸ hmem)

theorem exceptMapM_eq_map {α β : Type} {l : List α} {f : α → Except TdErr β}
    {g : α → β} (h : ∀ a ∈ l, f a = Except.ok (g a)) :
    l.mapM f = Except.ok (l.map g) := by
  induction l with
  | nil => rfl
  | cons a as ih =>
    rw [List.mapM_cons, h a (by simp), exceptBind_ok,
      ih (fun x hx => h x (by simp [hx])), exceptBind_ok]
    rfl

theorem mem_insertSorted {x y : String} {l : List String} :
    x ∈ insertSorted y l ↔ x = y ∨ x ∈ l := by
  induction l with
  | nil => simp [insertSorted]
  | cons z zs ih =>
    unfold insertSorted
    split
    · simp
    · simp only [List.mem_cons, ih]
      tauto

theorem mem_sortStrings {x : String} {l : List String} :
    x ∈ sortStrings l ↔ x ∈ l := by
  induction l with
  | nil => simp [sortStrings]
  | cons y ys ih =>
    unfold sortStrings
    rw [mem_insertSorted, ih]
    simp

theorem enumContainsOK_spec {allTypes : TypesDict} {rev : Revision}
    {l : List String} (h : enumContainsOK allTypes rev l = true) :
    ∀ dep ∈ l, ∀ fields, tlookup allTypes dep = some fields →
      ∀ f ∈ fields, rev = Revision.ACTIVE → f.type = "enum" →
        f.contains ≠ none := by
  intro dep hdep fields htl f hf hrev htype hcon
  unfold enumContainsOK at h
  rw [List.all_eq_true] at h
  have h1 := h dep hdep
  rw [htl] at h1
  have h2 : fields.all (fun f =>
      !((rev == Revision.ACTIVE) && (f.type == "enum") && f.contains.isNone)) =
      true := h1
  rw [List.all_eq_true] at h2
  have h3 := h2 f hf
  rw [hrev, htype, hcon] at h3
  simp at h3

theorem renderFieldCode_eq_spec (esc : String → String) (rev : Revision)
    (t : StarknetType)
    (hwf : rev = Revision.ACTIVE → t.type = "enum" → t.contains ≠ none) :
    renderFieldCode esc rev t =
      Except.ok (esc t.name ++ ":" ++ specFieldType esc rev t) := by
  unfold renderFieldCode encodeTypeTarget specFieldType renderTypeString
  by_cases hcase : t.type = "enum" ∧ rev = Revision.ACTIVE
  · rcases hcon : t.contains with _ | c
    · exact absurd hcon (hwf hcase.2 hcase.1)
    · rw [if_pos hcase]
      simp only [if_pos (And.intro hcase.2 hcase.1), hcon, Option.getD_some]
      rfl
  · rw [if_neg hcase]
    have hcase' : ¬ (rev = Revision.ACTIVE ∧ t.type = "enum") := by tauto
    simp only [if_neg hcase']
    rfl

theorem typeBlock_eq_spec (allTypes : TypesDict) (esc : String → String)
    (rev : Revision) (dep : String) (fields : List StarknetType)
    (htl : tlookup allTypes dep = some fields)
    (hwf : ∀ f ∈ fields, rev = Revision.ACTIVE → f.type = "enum" →
      f.contains ≠ none) :
    typeBlock allTypes esc rev dep =
      Except.ok (specTypeBlock allTypes esc rev dep) := by
  unfold typeBlock specTypeBlock
  rw [htl]
  have hmapm : fields.mapM (renderFieldCode esc rev) =
      Except.ok (fields.map (fun t => esc t.name ++ ":" ++ specFieldType esc rev t)) :=
    exceptMapM_eq_map (fun t ht => renderFieldCode_eq_spec esc rev t (hwf t ht))
  show (fields.mapM (renderFieldCode esc rev)).map
      (fun elems => esc dep ++ "(" ++ String.intercalate "," elems ++ ")") = _
  rw [hmapm]
  rfl

theorem getMerkleTreeType_spec (types : TypesDict) (p k : String)
    (pfields : List StarknetType) (mt : StarknetType)
    (hp : p ≠ "") (hk : k ≠ "")
    (hpt : tlookup types p = some pfields)
    (hfind : pfields.find? (fun t => t.name == k) = some mt) :
    (mt.type ≠ "merkletree" →
      getMerkleTreeType types ⟨some p, some k⟩ =
        Except.error (TdErr.merkleShape "is not a merkle tree")) ∧
    (∀ c, mt.type = "merkletree" → mt.contains = some c → endsWithStar c = true →
      getMerkleTreeType types ⟨some p, some k⟩ =
        Except.error (TdErr.merkleShape "contain property must not be an array")) ∧
    (∀ c, mt.type = "merkletree" → mt.contains = some c → endsWithStar c = false →
      getMerkleTreeType types ⟨some p, some k⟩ = Except.ok c) := by
  have hred : getMerkleTreeType types ⟨some p, some k⟩ =
      (if ¬ isMerkleTreeType mt then
        throw (TdErr.merkleShape "is not a merkle tree")
      else
        match mt.contains with
        | none => throw (TdErr.runtime "endsWith of undefined")
        | some c =>
          if endsWithStar c then
            throw (TdErr.merkleShape "contain property must not be an array")
          else pure c) := by
    unfold getMerkleTreeType
    rw [if_pos ⟨by simp [isTruthyOptStr, hp], by simp [isTruthyOptStr, hk]⟩]
    dsimp only [Option.getD]
    rw [hpt]
    dsimp only
    rw [hfind]
  refine ⟨?_, ?_, ?_⟩
  · intro hne
    rw [hred, if_pos (by simp [isMerkleTreeType, hne])]
    rfl
  · intro c heq hc hstar
    rw [hred, if_neg (by simp [isMerkleTreeType, heq]), hc]
    show (if endsWithStar c = true then
        (throw (TdErr.merkleShape "contain property must not be an array") :
          Except TdErr String)
      else pure c) = _
    rw [if_pos hstar]
    rfl
  · intro c heq hc hstar
    rw [hred, if_neg (by simp [isMerkleTreeType, heq]), hc]
    show (if endsWithStar c = true then
        (throw (TdErr.merkleShape "contain property must not be an array") :
          Except TdErr String)
      else pure c) = _
    rw [if_neg (by simp [hstar])]
    rfl

/-! ## The claims -/

/-- Claim C1: for every typed document that passes validation — so with a
resolvable revision — and whose short-string encoding and both struct
hashes are available, `getMessageHash` returns the revision's element-hash
applied to the four-element sequence `[shortString "StarkNet Message",
domainHash, account, messageHash]`. -/
theorem c1_getMessageHash (P : Prims) (fuel : Nat) (td : TypedData)
    (account : BigNumberish) (rev : Revision) (sms dh mh : String)
    (hval : validateTypedData P td = true)
    (hrev : identifyRevision P td = some rev)
    (hsms : P.encodeShortString "StarkNet Message" = some sms)
    (hdh : getStructHash P fuel td.types (revisionConfiguration P rev).domain
      td.domain rev = Except.ok dh)
    (hmh : getStructHash P fuel td.types td.primaryType td.message rev =
      Except.ok mh) :
    getMessageHash P fuel td account =
      Except.ok ((revisionConfiguration P rev).hashMethod
        [BigNumberish.str sms, BigNumberish.str dh, account,
          BigNumberish.str mh]) := by
  unfold getMessageHash starkNetMessageWord
  rw [hrev]
  simp [hval, hsms, hdh, hmh]
  rfl

/-- Witness for C1: the sample collaborators on `mailDoc` at a concrete
account. -/
theorem c1_witness :
    getMessageHash samplePrims 8 mailDoc (BigNumberish.num 3) =
      Except.ok ((revisionConfiguration samplePrims Revision.LEGACY).hashMethod
        [BigNumberish.str "0x537461726b4e6574204d657373616765",
         BigNumberish.str "PD[sel:StarkNetDomain(name:felt),0x1]",
         BigNumberish.num 3,
         BigNumberish.str "PD[sel:Mail(msg:felt),0x5]"]) :=
  c1_getMessageHash samplePrims 8 mailDoc (BigNumberish.num 3) Revision.LEGACY
    "0x537461726b4e6574204d657373616765" "PD[sel:StarkNetDomain(name:felt),0x1]"
    "PD[sel:Mail(msg:felt),0x5]" rfl rfl rfl rfl rfl

/-- Claim C2: revision resolution returns Active iff `types` declares
`StarknetDomain` and the domain's `revision` field strictly equals the
Active sentinel; Legacy iff `types` declares `StarkNetDomain` and the
`revision` field is absent, `null` or the Legacy sentinel (the Active rule
is checked first and never overlaps under distinct sentinels); and no
revision in every other case. -/
theorem c2_identifyRevision (P : Prims) (td : TypedData)
    (hPA : P.activeSentinel.isPrim = true) (hPL : P.legacySentinel.isPrim = true)
    (hNE : P.activeSentinel ≠ P.legacySentinel)
    (hNN : P.activeSentinel ≠ JsValue.vnull) :
    (identifyRevision P td = some Revision.ACTIVE ↔
      tcontainsKey td.types "StarknetDomain" = true ∧
        jsGetProp td.domain "revision" = some P.activeSentinel) ∧
    (identifyRevision P td = some Revision.LEGACY ↔
      tcontainsKey td.types "StarkNetDomain" = true ∧
        (jsGetProp td.domain "revision" = none ∨
         jsGetProp td.domain "revision" = some JsValue.vnull ∨
         jsGetProp td.domain "revision" = some P.legacySentinel)) ∧
    (identifyRevision P td = none ↔
      ¬ (tcontainsKey td.types "StarknetDomain" = true ∧
          jsGetProp td.domain "revision" = some P.activeSentinel) ∧
      ¬ (tcontainsKey td.types "StarkNetDomain" = true ∧
          (jsGetProp td.domain "revision" = none ∨
           jsGetProp td.domain "revision" = some JsValue.vnull ∨
           jsGetProp td.domain "revision" = some P.legacySentinel))) := by
  refine ⟨?_, ?_, ?_⟩
  · rw [identifyRevision_active_iff, activeCondition_iff P td hPA]
  · rw [identifyRevision_legacy_iff]
    constructor
    · rintro ⟨-, hl⟩
      exact (legacyCondition_iff P td hPL).mp hl
    · intro h
      refine ⟨activeCondition_eq_false_of_legacyRHS P td hPA hNE hNN h.2, ?_⟩
      exact (legacyCondition_iff P td hPL).mpr h
  · rw [identifyRevision_none_iff]
    rw [← activeCondition_iff P td hPA, ← legacyCondition_iff P td hPL]
    simp

/-- Witness for C2: `activeDoc` resolves to the Active revision. -/
theorem c2_witness :
    identifyRevision samplePrims activeDoc = some Revision.ACTIVE :=
  ((c2_identifyRevision samplePrims activeDoc rfl rfl
      (by simp [samplePrims]) (by simp [samplePrims])).1).mpr ⟨by rfl, by rfl⟩

/-- Claim C3 (amended): the list returned by `getDependencies` on an empty
accumulator never holds duplicate names, and its head is the normalized
queried type exactly when that type is found in the universe — a query for
an unknown or primitive type returns the empty list, not a singleton of
the queried type. -/
theorem c3_getDependencies (types : TypesDict) (rev : Revision) (fuel : Nat)
    (type : String) (contains : String) (r : List String)
    (h : getDependencies types rev fuel type [] contains = some r) :
    r.Nodup ∧
    (tlookup types (depNormalize rev contains type) = none → r = []) ∧
    (∀ fields, tlookup types (depNormalize rev contains type) = some fields →
      r.head? = some (depNormalize rev contains type)) := by
  refine ⟨getDependencies_nodup types rev fuel type [] contains r List.nodup_nil h,
    ?_, ?_⟩
  · intro htl
    match fuel with
    | 0 => exact absurd h (by simp [getDependencies])
    | g + 1 =>
      rw [getDependencies_succ_eq, if_neg (by simp), htl] at h
      exact (Option.some.inj h).symm
  · intro fields htl
    match fuel with
    | 0 => exact absurd h (by simp [getDependencies])
    | g + 1 =>
      rw [getDependencies_succ_eq, if_neg (by simp), htl] at h
      have h' : (exploreFrom types rev g fields []).map
          (fun fold => depNormalize rev contains type :: fold) = some r := h
      rcases hexp0 : exploreFrom types rev g fields [] with _ | fold
      · rw [hexp0] at h'
        exact absurd h' (by simp)
      · rw [hexp0] at h'
        have hr : r = depNormalize rev contains type :: fold := by
          simpa using h'.symm
        rw [hr]
        rfl

theorem c3_counterexample :
    getDependencies [] Revision.LEGACY 1 "felt" [] "" = some [] ∧
    ([] : List String).head? ≠ some "felt" := ⟨rfl, by decide⟩

/-- Witness for C3: the two-type universe `A -> B` explored from `A`. -/
theorem c3_witness :
    (["A", "B"] : List String).Nodup ∧
    (["A", "B"] : List String).head? =
      some (depNormalize Revision.LEGACY "" "A") :=
  ⟨(c3_getDependencies [("A", [⟨"b", "B", none⟩]), ("B", [])] Revision.LEGACY 3
      "A" "" ["A", "B"] rfl).1,
   (c3_getDependencies [("A", [⟨"b", "B", none⟩]), ("B", [])] Revision.LEGACY 3
      "A" "" ["A", "B"] rfl).2.2 [⟨"b", "B", none⟩] rfl⟩

/-- Claim C4 (amended): whenever the dependency list starts with a
non-empty name and every Active `enum` field carries its `contains`
reference, `encodeType` produces exactly the specification's rendering:
the primary type's block first, then the remaining dependencies sorted
lexicographically, each emitted as `EscapedName(name1:type1,...)` with no
separator between blocks; an empty dependency list yields the empty
string (which differs from the spec's rendering when the primary type has
the empty name, see the counterexample). -/
theorem c4_encodeType (P : Prims) (fuel : Nat) (types : TypesDict) (ty : String)
    (rev : Revision) (l : List String) (s : String)
    (h : getDependencies (mergedTypes rev types) rev fuel ty [] "" = some l)
    (hhead : l.head? ≠ some "")
    (hwf : enumContainsOK (mergedTypes rev types) rev l = true)
    (hs : encodeTypeSpec P fuel types ty rev = some s) :
    encodeType P fuel types ty rev = Except.ok s ∧ (l = [] → s = "") := by
  unfold encodeTypeSpec at hs
  rw [h] at hs
  unfold encodeType
  rw [h]
  cases l with
  | nil =>
    have hs0 : some ("" : String) = some s := hs
    have hs1 := Option.some.inj hs0
    refine ⟨?_, fun _ => hs1.symm⟩
    rw [← hs1]
    rfl
  | cons primary ds =>
    have hs0 : some (String.join ((primary :: sortStrings ds).map
        (specTypeBlock (mergedTypes rev types)
          (revisionConfiguration P rev).escapeTypeString rev))) = some s := hs
    have hs1 := Option.some.inj hs0
    have hp : primary ≠ "" := by
      intro hpe
      exact hhead (by rw [hpe]; rfl)
    refine ⟨?_, fun hl => absurd hl (by simp)⟩
    rw [← hs1]
    have hsd : sortedDeps (primary :: ds) = primary :: sortStrings ds := by
      show (if primary = "" then [] else primary :: sortStrings ds) = _
      rw [if_neg hp]
    show ((sortedDeps (primary :: ds)).mapM
        (typeBlock (mergedTypes rev types)
          (revisionConfiguration P rev).escapeTypeString rev)).map String.join = _
    rw [hsd]
    have hmm : (primary :: sortStrings ds).mapM
        (typeBlock (mergedTypes rev types)
          (revisionConfiguration P rev).escapeTypeString rev) =
        Except.ok ((primary :: sortStrings ds).map
          (specTypeBlock (mergedTypes rev types)
            (revisionConfiguration P rev).escapeTypeString rev)) := by
      refine exceptMapM_eq_map (fun dep hdep => ?_)
      have hdepl : dep ∈ primary :: ds := by
        rcases List.mem_cons.mp hdep with rfl | hmem
        · exact List.mem_cons_self _ _
        · exact List.mem_cons_of_mem _ (mem_sortStrings.mp hmem)
      obtain ⟨g, fields, fold, _, htl, _, _⟩ :=
        getDependencies_mem (mergedTypes rev types) rev fuel ty [] "" _ dep h
          hdepl (by simp)
      exact typeBlock_eq_spec (mergedTypes rev types) _ rev dep fields htl
        (enumContainsOK_spec hwf dep hdepl fields htl)
    rw [hmm]
    rfl

theorem c4_counterexample :
    encodeType samplePrims 2 [("", [])] "" Revision.LEGACY = Except.ok "" ∧
    encodeTypeSpec samplePrims 2 [("", [])] "" Revision.LEGACY = some "()" ∧
    ("" : String) ≠ "()" := ⟨rfl, rfl, by decide⟩

/-- Witness for C4: a one-type Legacy universe rendered blockwise. -/
theorem c4_witness :
    encodeType samplePrims 2 [("Mail", [⟨"msg", "felt", none⟩])] "Mail"
      Revision.LEGACY = Except.ok "Mail(msg:felt)" ∧
    ((["Mail"] : List String) = [] → ("Mail(msg:felt)" : String) = "") :=
  c4_encodeType samplePrims 2 [("Mail", [⟨"msg", "felt", none⟩])] "Mail"
    Revision.LEGACY ["Mail"] "Mail(msg:felt)" rfl (by decide) rfl rfl

/-- Claim C5 (amended): `getMessageHash` fails with a schema mismatch
exactly when the document fails validation (truthy `message`,
`primaryType` and `types`, and a resolvable revision); in particular a
document declaring neither domain-type name fails so. An empty-but-present
message object is truthy, so it passes validation — see the
counterexample. -/
theorem c5_getMessageHash_schemaMismatch (P : Prims) (fuel : Nat)
    (td : TypedData) (account : BigNumberish) :
    (getMessageHash P fuel td account = Except.error TdErr.schemaMismatch ↔
      validateTypedData P td = false) ∧
    (tcontainsKey td.types "StarknetDomain" = false →
      tcontainsKey td.types "StarkNetDomain" = false →
      getMessageHash P fuel td account = Except.error TdErr.schemaMismatch) := by
  have hiff : getMessageHash P fuel td account = Except.error TdErr.schemaMismatch ↔
      validateTypedData P td = false := by
    constructor
    · intro h
      cases hv : validateTypedData P td with
      | false => rfl
      | true => exact absurd h (getMessageHash_ne_schema_of_valid P fuel td account hv)
    · exact getMessageHash_schema_of_invalid P fuel td account
  refine ⟨hiff, fun h1 h2 => ?_⟩
  apply getMessageHash_schema_of_invalid
  have hact : activeCondition P td = false := by
    unfold activeCondition
    rw [show (revisionConfiguration P Revision.ACTIVE).domain = "StarknetDomain" from rfl]
    simp [h1]
  have hleg : legacyCondition P td = false := by
    unfold legacyCondition
    rw [show (revisionConfiguration P Revision.LEGACY).domain = "StarkNetDomain" from rfl]
    simp [h2]
  unfold validateTypedData
  rw [(identifyRevision_none_iff P td).mpr ⟨hact, hleg⟩]
  simp

theorem c5_counterexample :
    validateTypedData samplePrims emptyMessageDoc = true ∧
    jsTruthy emptyMessageDoc.message = true ∧
    emptyMessageDoc.message = JsValue.vobj [] ∧
    (getMessageHash samplePrims 3 emptyMessageDoc (BigNumberish.num 7)).isOk = true :=
  ⟨rfl, rfl, rfl, rfl⟩

/-- Witness for C5: a document with neither domain-type name fails with a
schema mismatch. -/
theorem c5_witness :
    getMessageHash samplePrims 3 noDomainDoc (BigNumberish.num 7) =
      Except.error TdErr.schemaMismatch :=
  (c5_getMessageHash_schemaMismatch samplePrims 3 noDomainDoc
    (BigNumberish.num 7)).2 rfl rfl

/-- Claim C6 (amended): encoding a struct fails with a missing-field error
when a field's key is absent, or present as `null` while the field's type
is not `enum`; a `null` value on an `enum` field does pass the
missing-field check, but the encoding then throws a runtime TypeError
(`Object.entries(null)`) instead of succeeding. -/
theorem c6_missingField (P : Prims) (k : Nat) (types : TypesDict) (T : String)
    (f : StarknetType) (m : List (String × JsValue)) :
    (∀ rev th, tlookup types T = some [f] →
      getTypeHash P (k + 1) types T rev = Except.ok th →
      m.lookup f.name = none →
      encodeData P (k + 1) types T (JsValue.vobj m) rev =
        Except.error (TdErr.missingField f.name)) ∧
    (∀ rev th, tlookup types T = some [f] →
      getTypeHash P (k + 1) types T rev = Except.ok th →
      m.lookup f.name = some JsValue.vnull → f.type ≠ "enum" →
      encodeData P (k + 1) types T (JsValue.vobj m) rev =
        Except.error (TdErr.missingField f.name)) ∧
    (∀ th, tlookup types T = some [f] →
      getTypeHash P (k + 1) types T Revision.ACTIVE = Except.ok th →
      m.lookup f.name = some JsValue.vnull → f.type = "enum" →
      tlookup types "enum" = none →
      encodeData P (k + 1) types T (JsValue.vobj m) Revision.ACTIVE =
        Except.error (TdErr.runtime "entries of null")) := by
  have hred : ∀ rev th, tlookup types T = some [f] →
      getTypeHash P (k + 1) types T rev = Except.ok th →
      encodeData P (k + 1) types T (JsValue.vobj m) rev =
        encodeDataField (fun a b c d e => encodeValue P (k + 1) a b c d e)
          types T (JsValue.vobj m) rev (["felt"], [th]) f := by
    intro rev th hT hth
    unfold encodeData encodeDataAux
    have hl : lookupTargetType P types T rev = Except.ok [f] := by
      unfold lookupTargetType
      rw [hT]
      rfl
    rw [hl, exceptBind_ok, hth, exceptBind_ok]
    simp only [List.foldlM_cons, List.foldlM_nil, bind_pure]
  have hget : jsGetField (JsValue.vobj m) f.name =
      (pure (m.lookup f.name) : Except TdErr (Option JsValue)) := rfl
  refine ⟨?_, ?_, ?_⟩
  · intro rev th hT hth hm
    rw [hred rev th hT hth]
    unfold encodeDataField
    rw [hget, hm, exceptPure_bind]
    rfl
  · intro rev th hT hth hm hne
    rw [hred rev th hT hth]
    unfold encodeDataField
    rw [hget, hm, exceptPure_bind]
    dsimp only
    rw [if_pos ⟨rfl, hne⟩]
    rfl
  · intro th hT hth hm htype henum
    rw [hred Revision.ACTIVE th hT hth]
    unfold encodeDataField
    rw [hget, hm, exceptPure_bind]
    dsimp only
    rw [if_neg (by simp [htype])]
    rw [htype]
    rw [encodeValue_primitive P k types "enum" JsValue.vnull
      ⟨some T, some f.name⟩ Revision.ACTIVE henum rfl rfl]
    rfl

/-- Witness for C6: an absent key on a `felt` field raises the missing-field
error. -/
theorem c6_witness :
    encodeData samplePrims 3 [("T", [⟨"x", "felt", none⟩])] "T"
      (JsValue.vobj []) Revision.LEGACY =
      Except.error (TdErr.missingField "x") :=
  (c6_missingField samplePrims 2 [("T", [⟨"x", "felt", none⟩])] "T"
    ⟨"x", "felt", none⟩ []).1 Revision.LEGACY "sel:T(x:felt)" rfl rfl rfl

/-- Counterexample for C6: a `null` value on an `enum` field passes the
missing-field check, but encoding then throws on `Object.entries(null)`
instead of succeeding. -/
theorem c6_counterexample :
    ([("x", JsValue.vnull)].lookup "x" = some JsValue.vnull) ∧
    encodeData samplePrims 3 [("T", [⟨"x", "enum", some "V"⟩]), ("V", [])] "T"
      (JsValue.vobj [("x", JsValue.vnull)]) Revision.ACTIVE =
      Except.error (TdErr.runtime "entries of null") := ⟨rfl, rfl⟩

/-- Claim C7: under the Active revision an `i128` value is parsed as a
signed big integer, rejected with a range violation outside
`[-2^127, 2^127 - 1]`, and a negative in-range value `v` is encoded as
`hex(PRIME + v)`; encoding `-1` therefore yields the same scalar as
encoding the felt `PRIME - 1`. -/
theorem c7_i128 (P : Prims) (fuel : Nat) (types : TypesDict) (data : JsValue)
    (ctx : Context)
    (hi : tlookup types "i128" = none)
    (hf : tlookup types "felt" = none) :
    (∀ v : Int, toBigIntV data = some v →
      RANGE_I128_MIN ≤ v → v ≤ RANGE_I128_MAX →
      encodeValue P (fuel + 1) types "i128" data ctx Revision.ACTIVE =
        Except.ok ("i128", intToHexStr (if v < 0 then PRIME + v else v))) ∧
    (∀ v : Int, toBigIntV data = some v →
      (v < RANGE_I128_MIN ∨ RANGE_I128_MAX < v) →
      encodeValue P (fuel + 1) types "i128" data ctx Revision.ACTIVE =
        Except.error (TdErr.rangeViolation "i128")) ∧
    ((encodeValue P (fuel + 1) types "i128" (JsValue.vint (-1)) ctx
        Revision.ACTIVE).map Prod.snd = Except.ok (intToHexStr (PRIME - 1)) ∧
     (encodeValue P (fuel + 1) types "felt" (JsValue.vint (PRIME - 1)) ctx
        Revision.ACTIVE).map Prod.snd = Except.ok (intToHexStr (PRIME - 1))) := by
  refine ⟨?_, ?_, ?_, ?_⟩
  · intro v hv hlo hhi
    rw [encodeValue_primitive P fuel types "i128" data ctx Revision.ACTIVE hi rfl rfl]
    simp [encodePrimitiveValue, hv]
    rw [assertRange_ok (JsValue.vint v) "i128" _ _ v rfl hlo hhi]
    rfl
  · intro v hv hout
    rw [encodeValue_primitive P fuel types "i128" data ctx Revision.ACTIVE hi rfl rfl]
    simp [encodePrimitiveValue, hv]
    rw [assertRange_err (JsValue.vint v) "i128" _ _ v rfl (by omega)]
    rfl
  · rw [encodeValue_primitive P fuel types "i128" (JsValue.vint (-1)) ctx
      Revision.ACTIVE hi rfl rfl]
    rfl
  · rw [encodeValue_primitive P fuel types "felt" (JsValue.vint (PRIME - 1)) ctx
      Revision.ACTIVE hf rfl rfl]
    rfl

/-- Witness for C7: the in-range negative value `-7` wraps to
`PRIME - 7`. -/
theorem c7_witness :
    encodeValue samplePrims 1 [] "i128" (JsValue.vint (-7)) ⟨none, none⟩
      Revision.ACTIVE =
      Except.ok ("i128",
        intToHexStr (if (-7 : Int) < 0 then PRIME + (-7) else (-7))) :=
  (c7_i128 samplePrims 0 [] (JsValue.vint (-7)) ⟨none, none⟩ rfl rfl).1
    (-7) rfl (by decide) (by decide)

/-- Claim C8: a type tag that names no declared or preset struct, carries
no array marker, and is none of the recognized primitive tags makes
`encodeValue` fail with an unsupported-type error under Active, while
under Legacy it returns the best-effort hex encoding of the value and can
never raise an unsupported-type error. -/
theorem c8_unsupportedType (P : Prims) (fuel : Nat) (types : TypesDict)
    (ty : String) (data : JsValue) (ctx : Context)
    (hT : tlookup types ty = none)
    (hPA : tlookup presetTypes ty = none)
    (hStar : endsWithStar ty = false)
    (hKnown : ty ∉ ["enum", "merkletree", "selector", "string", "i128",
      "timestamp", "u128", "felt", "shortstring", "ClassHash",
      "ContractAddress", "bool"]) :
    (encodeValue P (fuel + 1) types ty data ctx Revision.ACTIVE =
      Except.error (TdErr.unsupportedType ty)) ∧
    (encodeValue P (fuel + 1) types ty data ctx Revision.LEGACY =
      (getHex P data).map (fun h => (ty, h))) ∧
    (∀ e, encodeValue P (fuel + 1) types ty data ctx Revision.LEGACY =
      Except.error e → ∀ s, e ≠ TdErr.unsupportedType s) := by
  simp only [List.mem_cons, List.not_mem_nil, or_false] at hKnown
  push_neg at hKnown
  obtain ⟨h1, h2, h3, h4, h5, h6, h7, h8, h9, h10, h11, h12⟩ := hKnown
  have hprimA : encodeValue P (fuel + 1) types ty data ctx Revision.ACTIVE =
      encodePrimitiveValue P (fun a b c d e => encodeValue P fuel a b c d e)
        types ty data ctx Revision.ACTIVE :=
    encodeValue_primitive P fuel types ty data ctx Revision.ACTIVE hT hPA hStar
  have hprimL : encodeValue P (fuel + 1) types ty data ctx Revision.LEGACY =
      encodePrimitiveValue P (fun a b c d e => encodeValue P fuel a b c d e)
        types ty data ctx Revision.LEGACY :=
    encodeValue_primitive P fuel types ty data ctx Revision.LEGACY hT rfl hStar
  have hswitch : ∀ rev ev, encodePrimitiveValue P ev types ty data ctx rev =
      (if rev = Revision.ACTIVE then throw (TdErr.unsupportedType ty)
       else (getHex P data).map (fun h => (ty, h))) := by
    intro rev ev
    unfold encodePrimitiveValue
    split
    all_goals first
      | rfl
      | (exfalso; simp_all)
  refine ⟨?_, ?_, ?_⟩
  · rw [hprimA, hswitch]
    rfl
  · rw [hprimL, hswitch]
    rfl
  · intro e he s
    rw [hprimL, hswitch] at he
    simp only [if_neg (by simp : ¬ Revision.LEGACY = Revision.ACTIVE)] at he
    rw [exceptMap_error_iff] at he
    intro hcontra
    rw [hcontra] at he
    exact getHex_ne_unsupported P data s he

/-- Witness for C8: the unrecognized tag `u64` rejects under Active and
falls back to hex under Legacy. -/
theorem c8_witness :
    encodeValue samplePrims 1 [] "u64" (JsValue.vstr "5") ⟨none, none⟩
      Revision.ACTIVE = Except.error (TdErr.unsupportedType "u64") ∧
    encodeValue samplePrims 1 [] "u64" (JsValue.vstr "5") ⟨none, none⟩
      Revision.LEGACY =
      (getHex samplePrims (JsValue.vstr "5")).map (fun h => ("u64", h)) :=
  ⟨(c8_unsupportedType samplePrims 0 [] "u64" (JsValue.vstr "5") ⟨none, none⟩
      rfl rfl rfl (by decide)).1,
   (c8_unsupportedType samplePrims 0 [] "u64" (JsValue.vstr "5") ⟨none, none⟩
      rfl rfl rfl (by decide)).2.1⟩

/-- Claim C9: a `merkletree` field resolves its leaf type from the parent
declaration's `contains` reference, fails when the referencing parent
field is not itself declared `merkletree` or when its `contains` names an
array type, and otherwise encodes every array element against the leaf
type and returns the Merkle root, built with the revision's pair-hash
function, tagged as type `felt`. -/
theorem c9_merkletree (P : Prims) (fuel : Nat) (types : TypesDict)
    (data : JsValue) (p k : String) (pfields : List StarknetType)
    (mt : StarknetType) (rev' : Revision)
    (hT : tlookup types "merkletree" = none)
    (hp : p ≠ "") (hk : k ≠ "")
    (hpt : tlookup types p = some pfields)
    (hfind : pfields.find? (fun t => t.name == k) = some mt) :
    (mt.type ≠ "merkletree" →
      encodeValue P (fuel + 1) types "merkletree" data ⟨some p, some k⟩ rev' =
        Except.error (TdErr.merkleShape "is not a merkle tree")) ∧
    (∀ c, mt.type = "merkletree" → mt.contains = some c → endsWithStar c = true →
      encodeValue P (fuel + 1) types "merkletree" data ⟨some p, some k⟩ rev' =
        Except.error (TdErr.merkleShape "contain property must not be an array")) ∧
    (∀ c items hashes, mt.type = "merkletree" → mt.contains = some c →
      endsWithStar c = false → data = JsValue.varr items →
      items.mapM (fun struct =>
        (encodeValue P fuel types c struct ⟨none, none⟩ rev').map Prod.snd) =
          Except.ok hashes →
      encodeValue P (fuel + 1) types "merkletree" data ⟨some p, some k⟩ rev' =
        Except.ok ("felt", P.merkleRootOf hashes
          (revisionConfiguration P rev').hashMerkleMethod)) := by
  have hPA : tlookup (revisionConfiguration P rev').presetTypes "merkletree" = none := by
    cases rev' <;> rfl
  have hprim := encodeValue_primitive P fuel types "merkletree" data
    ⟨some p, some k⟩ rev' hT hPA rfl
  have hspec := getMerkleTreeType_spec types p k pfields mt hp hk hpt hfind
  have hmv : encodeValue P (fuel + 1) types "merkletree" data ⟨some p, some k⟩ rev' =
      encodeMerkleValue P (fun a b c d e => encodeValue P fuel a b c d e)
        types data ⟨some p, some k⟩ rev' := by
    rw [hprim]
    rfl
  refine ⟨?_, ?_, ?_⟩
  · intro hne
    rw [hmv]
    unfold encodeMerkleValue
    rw [hspec.1 hne]
    rfl
  · intro c heq hc hstar
    rw [hmv]
    unfold encodeMerkleValue
    rw [hspec.2.1 c heq hc hstar]
    rfl
  · intro c items hashes heq hc hstar hdata hmapM
    rw [hmv]
    unfold encodeMerkleValue
    rw [hspec.2.2 c heq hc hstar, hdata]
    show (items.mapM (fun struct =>
      (encodeValue P fuel types c struct ⟨none, none⟩ rev').map Prod.snd)).map
        (fun structHashes => ("felt", P.merkleRootOf structHashes
          (revisionConfiguration P rev').hashMerkleMethod)) = _
    rw [hmapM]
    rfl

/-- Witness for C9: a one-leaf Merkle tree whose parent field carries
`contains := "felt"`. -/
theorem c9_witness :
    encodeValue samplePrims 2 [("P", [⟨"root", "merkletree", some "felt"⟩])]
      "merkletree" (JsValue.varr [JsValue.vint 1]) ⟨some "P", some "root"⟩
      Revision.LEGACY =
      Except.ok ("felt", samplePrims.merkleRootOf ["0x1"]
        (revisionConfiguration samplePrims Revision.LEGACY).hashMerkleMethod) :=
  (c9_merkletree samplePrims 1 [("P", [⟨"root", "merkletree", some "felt"⟩])]
    (JsValue.varr [JsValue.vint 1]) "P" "root"
    [⟨"root", "merkletree", some "felt"⟩] ⟨"root", "merkletree", some "felt"⟩
    Revision.LEGACY rfl (by decide) (by decide) rfl rfl).2.2
    "felt" [JsValue.vint 1] ["0x1"] rfl rfl rfl rfl rfl

/-- Claim C10: in `getDependencies` the array-marker rule takes precedence
over the Active-revision enum and tuple normalizations — a type string
ending in `*` only loses the trailing `*`, so `enum*` resolves the literal
name `enum` and never the field's `contains` reference. -/
theorem c10_arrayMarkerFirst :
    (∀ (rev : Revision) (contains s : String), endsWithStar s = true →
      depNormalize rev contains s = s.dropRight 1) ∧
    (∀ (types : TypesDict) (contains : String) (fuel : Nat),
      getDependencies types Revision.ACTIVE (fuel + 1) "enum*" [] contains =
        (match tlookup types "enum" with
         | none => some []
         | some fields =>
           (exploreFields types Revision.ACTIVE fuel fields).map
             (fun fold => "enum" :: fold))) := by
  constructor
  · intro rev contains s h
    unfold depNormalize
    rw [if_pos h]
  · intro types contains fuel
    have hn : depNormalize Revision.ACTIVE contains "enum*" = "enum" := rfl
    show (let t := depNormalize Revision.ACTIVE contains "enum*"
      if ([] : List String).contains t then some []
      else
        match tlookup types t with
        | none => some []
        | some fields =>
          (fields.foldlM (fun previous f =>
            (getDependencies types Revision.ACTIVE fuel f.type previous
              (f.contains.getD "")).map
              (fun r => previous ++ r.filter (fun d => !previous.contains d))) []).map
            (fun fold => t :: fold)) = _
    rw [hn]
    cases htl : tlookup types "enum" with
    | none => simp only [htl]; rfl
    | some fields => simp only [htl, exploreFields]; rfl
